import Mathlib

/-!
# Performance-schema table HOST_CACHE

A shallow embedding of `storage/perfschema/table_host_cache.cc`:

* `make_row` projects one host cache entry into a row of the snapshot;
* `materialize` copies the cache, under its lock, into the row array;
* `reset_position`, `rnd_next` and `rnd_pos` move the cursor over the snapshot;
* `read_row_values` emits the requested columns of the current row.

Conventions of the embedding.

* A `char` buffer is a `List Nat` of bytes, read from the start of the buffer.
  A C string ends at its first NUL byte (or at the end of the list).
  Writing into a buffer replaces a prefix of the list; a write longer than the
  buffer makes the list longer, which is how an overrun shows.
  The lists follow the source while the copies of `make_row` stay inside
  `m_ip[64]` and `m_hostname[255]`, that is for `strlen(ip_key) < 64` and
  `m_hostname_length <= 255`.  Past that the source writes over the members
  that follow the buffer in `row_host_cache` (`m_ip_length` after `m_ip`,
  `m_hostname_length` after `m_hostname`), which the lists do not show.
* `uint` and `ulonglong` values are natural numbers.  The only narrowing
  conversion of the file, `size_t` to `uint` in `make_row`, is reduced modulo
  `2^32`.  The index increments act on an index that is below a `uint` bound,
  so they cannot wrap.
* A pointer into the row array is the index of the row it points to, and
  `none` is the NULL pointer.
* `DBUG_ASSERT` is compiled in or out by the build; the flag `dbug` says
  which.  A failed assertion ends the call with `Outcome.assert_fail`.
-/

namespace HostCache

/-- Result of a call that may be cut short: a value, a failed `DBUG_ASSERT`
(debug builds only), or a dereference of a pointer that addresses no row. -/
inductive Outcome (α : Type) where
  | ok (a : α)
  | assert_fail
  | undefined
  deriving DecidableEq, Repr

/-- The modulus of the C type `uint` (32 bits). -/
def UINT_MOD : Nat := 4294967296

/-- C library `strlen`: the number of bytes before the first NUL. -/
def strlen (s : List Nat) : Nat :=
  (s.takeWhile (fun c => c != 0)).length

/-- Write `bytes` at the start of the buffer `dst`; the bytes of `dst` after the
written part keep their content. -/
def store_bytes (dst bytes : List Nat) : List Nat :=
  bytes ++ dst.drop bytes.length

/-- C library `strcpy`: copies the source string and its terminating NUL,
whatever the capacity of the destination. -/
def strcpy (dst src : List Nat) : List Nat :=
  store_bytes dst (src.takeWhile (fun c => c != 0) ++ [0])

/-- C library `strncpy`: writes exactly `n` bytes, the first bytes of the source
string and then NUL padding. -/
def strncpy (dst src : List Nat) (n : Nat) : List Nat :=
  store_bytes dst
    ((src.takeWhile (fun c => c != 0)).take n
      ++ List.replicate (n - ((src.takeWhile (fun c => c != 0)).take n).length) 0)

/-- The members of `Host_errors` that `make_row` reads. -/
structure Host_errors where
  m_blocking_errors : Nat
  m_nameinfo_transient_errors : Nat
  m_nameinfo_permanent_errors : Nat
  m_format_errors : Nat
  m_addrinfo_transient_errors : Nat
  m_addrinfo_permanent_errors : Nat
  m_FCrDNS_errors : Nat
  m_host_acl_errors : Nat
  m_handshake_errors : Nat
  m_authentication_errors : Nat
  m_user_acl_errors : Nat
  m_local_errors : Nat
  m_unknown_errors : Nat
  deriving DecidableEq, Repr

/-- The members of `Host_entry` that `make_row` reads.  The successor of an
entry in the cache is carried by the traversal list of `hostname_cache`. -/
structure Host_entry where
  ip_key : List Nat
  m_hostname : List Nat
  m_hostname_length : Nat
  m_host_validated : Bool
  m_errors : Host_errors
  deriving DecidableEq, Repr

/-- A row of table HOST_CACHE, with the members `make_row` assigns. -/
structure row_host_cache where
  m_ip : List Nat
  m_ip_length : Nat
  m_hostname : List Nat
  m_hostname_length : Nat
  m_host_validated : Bool
  m_sum_blocking_errors : Nat
  m_count_nameinfo_transient_errors : Nat
  m_count_nameinfo_permanent_errors : Nat
  m_count_format_errors : Nat
  m_count_addrinfo_transient_errors : Nat
  m_count_addrinfo_permanent_errors : Nat
  m_count_fcrdns_errors : Nat
  m_count_host_acl_errors : Nat
  m_count_handshake_errors : Nat
  m_count_authentication_errors : Nat
  m_count_user_acl_errors : Nat
  m_count_local_errors : Nat
  m_count_unknown_errors : Nat
  deriving DecidableEq, Repr

/-- Source `table_host_cache::make_row`: fills `row`, whose previous content is
the second argument, from `entry`.  The result is the row of the source when
the key and its NUL fit in `m_ip[64]` and the recorded hostname length is at
most 255; a longer copy runs over the length members of the source row. -/
def make_row (entry : Host_entry) (row : row_host_cache) : row_host_cache :=
  let row := { row with m_ip_length := strlen entry.ip_key % UINT_MOD }
  let row := { row with m_ip := strcpy row.m_ip entry.ip_key }
  let row := { row with m_hostname_length := entry.m_hostname_length }
  let row :=
    if row.m_hostname_length > 0 then
      { row with m_hostname := strncpy row.m_hostname entry.m_hostname row.m_hostname_length }
    else row
  { row with
    m_host_validated := entry.m_host_validated
    m_sum_blocking_errors := entry.m_errors.m_blocking_errors
    m_count_nameinfo_transient_errors := entry.m_errors.m_nameinfo_transient_errors
    m_count_nameinfo_permanent_errors := entry.m_errors.m_nameinfo_permanent_errors
    m_count_format_errors := entry.m_errors.m_format_errors
    m_count_addrinfo_transient_errors := entry.m_errors.m_addrinfo_transient_errors
    m_count_addrinfo_permanent_errors := entry.m_errors.m_addrinfo_permanent_errors
    m_count_fcrdns_errors := entry.m_errors.m_FCrDNS_errors
    m_count_host_acl_errors := entry.m_errors.m_host_acl_errors
    m_count_handshake_errors := entry.m_errors.m_handshake_errors
    m_count_authentication_errors := entry.m_errors.m_authentication_errors
    m_count_user_acl_errors := entry.m_errors.m_user_acl_errors
    m_count_local_errors := entry.m_errors.m_local_errors
    m_count_unknown_errors := entry.m_errors.m_unknown_errors }

/-- One step of the cache mutex. -/
inductive lock_event where
  | lock
  | unlock
  deriving DecidableEq, Repr

/-- Modelled from the spec: the host cache collaborator of `hostname.h`, which
"exposes lock/unlock, a size query, and an in-order traversal primitive".
`size` is what the size query answers, `entries` is the chain of entries that
first/next walk, and `events` records the lock and unlock calls in order. -/
structure hostname_cache where
  size : Nat
  entries : List Host_entry
  events : List lock_event
  deriving DecidableEq, Repr

/-- Modelled from the spec: `hostname_cache_lock`, acquire the cache lock. -/
def hostname_cache_lock (c : hostname_cache) : hostname_cache :=
  { c with events := c.events ++ [lock_event.lock] }

/-- Modelled from the spec: `hostname_cache_unlock`, release the cache lock. -/
def hostname_cache_unlock (c : hostname_cache) : hostname_cache :=
  { c with events := c.events ++ [lock_event.unlock] }

/-- Modelled from the spec: `hostname_cache_size`, the size query. -/
def hostname_cache_size (c : hostname_cache) : Nat :=
  c.size

/-- Modelled from the spec: `hostname_cache_first`, the first entry of the
traversal; the list is the chain that `Host_entry::next` follows, and the empty
list is the NULL pointer. -/
def hostname_cache_first (c : hostname_cache) : List Host_entry :=
  c.entries

/-- Modelled from the spec: the allocator of the session, `THD::alloc`.  It
may fail; when it succeeds for `n` rows it returns `n` row slots whose content
is whatever the memory held (`raw i` for slot `i`). -/
structure THD where
  alloc_ok : Bool
  raw : Nat → row_host_cache

/-- Modelled from the spec: `thd->alloc(n * sizeof(row_host_cache))`, NULL
(`none`) on failure and `n` uninitialised row slots otherwise. -/
def THD.alloc (thd : THD) (n : Nat) : Option (List row_host_cache) :=
  if thd.alloc_ok then some ((List.range n).map thd.raw) else none

/-- Modelled from the spec: `PFS_simple_index`, the "copyable index into
SnapshotArray" of `pfs_engine_table.h`. -/
structure PFS_simple_index where
  m_index : Nat
  deriving DecidableEq, Repr

/-- Modelled from the spec: `PFS_simple_index::set_at`, "current := next". -/
def PFS_simple_index.set_at (_self other : PFS_simple_index) : PFS_simple_index :=
  { m_index := other.m_index }

/-- Modelled from the spec: `PFS_simple_index::set_after`,
"next := current+1". -/
def PFS_simple_index.set_after (_self other : PFS_simple_index) : PFS_simple_index :=
  { m_index := other.m_index + 1 }

/-- The state of a `table_host_cache` object.  `m_all_rows` is the row array
(`none` is NULL) and `m_row` points into it. -/
structure table_host_cache where
  m_all_rows : Option (List row_host_cache)
  m_row_count : Nat
  m_row : Option Nat
  m_pos : PFS_simple_index
  m_next_pos : PFS_simple_index
  deriving DecidableEq, Repr

/-- Source constructor `table_host_cache::table_host_cache`. -/
def table_host_cache.new : table_host_cache :=
  { m_all_rows := none, m_row_count := 0, m_row := none,
    m_pos := { m_index := 0 }, m_next_pos := { m_index := 0 } }

/-- The `while` loop of `materialize`: `current` is the head of the entry chain,
`index` counts the rows made and `rows` is the array, whose slot `index` is the
one `row` points to. -/
def materialize_loop (size : Nat) :
    List Host_entry → Nat → List row_host_cache → Nat × List row_host_cache
  | [], index, rows => (index, rows)
  | current :: rest, index, rows =>
    if index < size then
      materialize_loop size rest (index + 1) (List.modify (make_row current) index rows)
    else (index, rows)

/-- Source `table_host_cache::materialize`.  Returns the table and the cache
(whose `events` now hold the lock and unlock calls). -/
def table_host_cache.materialize (dbug : Bool) (t : table_host_cache) (thd : THD)
    (cache : hostname_cache) : Outcome (table_host_cache × hostname_cache) :=
  if dbug && t.m_all_rows.isSome then Outcome.assert_fail
  else if dbug && t.m_row_count != 0 then Outcome.assert_fail
  else
    let cache := hostname_cache_lock cache
    let size := hostname_cache_size cache
    if size == 0 then
      Outcome.ok (t, hostname_cache_unlock cache)
    else
      match thd.alloc size with
      | none => Outcome.ok (t, hostname_cache_unlock cache)
      | some rows =>
        let r := materialize_loop size (hostname_cache_first cache) 0 rows
        Outcome.ok ({ t with m_all_rows := some r.2, m_row_count := r.1 },
          hostname_cache_unlock cache)

/-- Source `table_host_cache::create`: a new table, then `materialize` with the
current session.  The `new` expression is taken to return an object. -/
def table_host_cache.create (dbug : Bool) (thd : THD) (cache : hostname_cache) :
    Outcome (table_host_cache × hostname_cache) :=
  table_host_cache.materialize dbug table_host_cache.new thd cache

/-- Modelled from the spec: the handler code for "end-of-data", named
`HA_ERR_END_OF_FILE` in `my_base.h`; success is 0. -/
def HA_ERR_END_OF_FILE : Int := 137

/-- Modelled from the spec: `PFS_engine_table::set_position`, which copies the
caller's position into `m_pos` ("sets current directly"). -/
def table_host_cache.set_position (t : table_host_cache) (pos : PFS_simple_index) :
    table_host_cache :=
  { t with m_pos := pos }

/-- Source `table_host_cache::reset_position`. -/
def table_host_cache.reset_position (t : table_host_cache) : table_host_cache :=
  let t := { t with m_pos := { m_index := 0 } }
  { t with m_next_pos := { m_index := 0 } }

/-- Source `table_host_cache::rnd_next`: the new state and the result code. -/
def table_host_cache.rnd_next (t : table_host_cache) : table_host_cache × Int :=
  let t := { t with m_pos := t.m_pos.set_at t.m_next_pos }
  if t.m_pos.m_index < t.m_row_count then
    let t := { t with m_row := some t.m_pos.m_index }
    let t := { t with m_next_pos := t.m_next_pos.set_after t.m_pos }
    (t, 0)
  else
    ({ t with m_row := none }, HA_ERR_END_OF_FILE)

/-- Source `table_host_cache::rnd_pos`: the new state and the result code, or
the failed assertion of a debug build. -/
def table_host_cache.rnd_pos (dbug : Bool) (t : table_host_cache) (pos : PFS_simple_index) :
    Outcome (table_host_cache × Int) :=
  let t := t.set_position pos
  if dbug && !(decide (t.m_pos.m_index < t.m_row_count)) then Outcome.assert_fail
  else Outcome.ok ({ t with m_row := some t.m_pos.m_index }, 0)

/-- The row `m_row` points to: `none` when `m_row` is NULL or addresses no slot
of the row array. -/
def table_host_cache.current_row (t : table_host_cache) : Option row_host_cache :=
  match t.m_row, t.m_all_rows with
  | some i, some rows => rows[i]?
  | _, _ => none

/-- The state after `n` successive `rnd_next` calls. -/
def rnd_next_iter : Nat → table_host_cache → table_host_cache
  | 0, t => t
  | n + 1, t => rnd_next_iter n t.rnd_next.1

/-- Modelled from the spec: the "two-valued enumeration {YES, NO}",
`enum_yes_no` of `table_helper.h`. -/
inductive enum_yes_no where
  | ENUM_YES
  | ENUM_NO
  deriving DecidableEq, Repr

/-- What the storage of one output column holds: a text, an enumeration value
or an unsigned 64-bit integer. -/
inductive field_value where
  | varchar (text : List Nat)
  | enum_value (v : enum_yes_no)
  | ulonglong (v : Nat)
  deriving DecidableEq, Repr

/-- The output record `buf`: per column ordinal, the null indicator (all of
them live in the null byte `buf[0]`) and the value storage. -/
structure row_buffer where
  null_flag : Nat → Bool
  value : Nat → field_value

/-- Modelled from the spec: a `Field` of the output record, known by its column
ordinal `field_index`. -/
structure Field where
  field_index : Nat
  deriving DecidableEq, Repr

/-- Modelled from the spec: the members of `TABLE` that `read_row_values`
reads, the number of null bytes of the record and the set of requested
columns. -/
structure TABLE where
  null_bytes : Nat
  read_set : Nat → Bool

/-- Modelled from the spec: `bitmap_is_set`, membership in the requested
column set. -/
def bitmap_is_set (map : Nat → Bool) (bit : Nat) : Bool :=
  map bit

/-- Modelled from the spec: `PFS_engine_table::set_field_varchar_utf8`, which
stores the first `len` bytes of `str` as the text of the column. -/
def set_field_varchar_utf8 (f : Field) (str : List Nat) (len : Nat) (buf : row_buffer) :
    row_buffer :=
  { buf with value := fun j =>
      if j = f.field_index then field_value.varchar (str.take len) else buf.value j }

/-- Modelled from the spec: `PFS_engine_table::set_field_enum`. -/
def set_field_enum (f : Field) (v : enum_yes_no) (buf : row_buffer) : row_buffer :=
  { buf with value := fun j =>
      if j = f.field_index then field_value.enum_value v else buf.value j }

/-- Modelled from the spec: `PFS_engine_table::set_field_ulonglong`. -/
def set_field_ulonglong (f : Field) (v : Nat) (buf : row_buffer) : row_buffer :=
  { buf with value := fun j =>
      if j = f.field_index then field_value.ulonglong v else buf.value j }

/-- Modelled from the spec: `Field::set_null`, which sets the null indicator of
the column and leaves its value storage alone. -/
def Field.set_null (f : Field) (buf : row_buffer) : row_buffer :=
  { buf with null_flag := fun j => if j = f.field_index then true else buf.null_flag j }

/-- Read through `m_row`: undefined when it addresses no row. -/
def with_row (m_row : Option row_host_cache) (k : row_host_cache → row_buffer) :
    Outcome row_buffer :=
  match m_row with
  | some row => Outcome.ok (k row)
  | none => Outcome.undefined

/-- The `switch` of `read_row_values` for one requested field. -/
def read_row_field (dbug : Bool) (m_row : Option row_host_cache) (f : Field)
    (buf : row_buffer) : Outcome row_buffer :=
  match f.field_index with
  | 0 => with_row m_row fun r => set_field_varchar_utf8 f r.m_ip r.m_ip_length buf
  | 1 => with_row m_row fun r =>
      if r.m_hostname_length > 0 then
        set_field_varchar_utf8 f r.m_hostname r.m_hostname_length buf
      else
        f.set_null buf
  | 2 => with_row m_row fun r =>
      set_field_enum f (if r.m_host_validated then enum_yes_no.ENUM_YES else enum_yes_no.ENUM_NO)
        buf
  | 3 => with_row m_row fun r => set_field_ulonglong f r.m_sum_blocking_errors buf
  | 4 => with_row m_row fun r => set_field_ulonglong f r.m_count_nameinfo_transient_errors buf
  | 5 => with_row m_row fun r => set_field_ulonglong f r.m_count_nameinfo_permanent_errors buf
  | 6 => with_row m_row fun r => set_field_ulonglong f r.m_count_format_errors buf
  | 7 => with_row m_row fun r => set_field_ulonglong f r.m_count_addrinfo_transient_errors buf
  | 8 => with_row m_row fun r => set_field_ulonglong f r.m_count_addrinfo_permanent_errors buf
  | 9 => with_row m_row fun r => set_field_ulonglong f r.m_count_fcrdns_errors buf
  | 10 => with_row m_row fun r => set_field_ulonglong f r.m_count_host_acl_errors buf
  | 11 => with_row m_row fun r => set_field_ulonglong f r.m_count_handshake_errors buf
  | 12 => with_row m_row fun r => set_field_ulonglong f r.m_count_authentication_errors buf
  | 13 => with_row m_row fun r => set_field_ulonglong f r.m_count_user_acl_errors buf
  | 14 => with_row m_row fun r => set_field_ulonglong f r.m_count_local_errors buf
  | 15 => with_row m_row fun r => set_field_ulonglong f r.m_count_unknown_errors buf
  | _ => if dbug then Outcome.assert_fail else Outcome.ok buf

/-- The `for` loop of `read_row_values` over the NULL-terminated field array. -/
def read_row_fields (dbug : Bool) (m_row : Option row_host_cache) (table : TABLE)
    (read_all : Bool) : List Field → row_buffer → Outcome row_buffer
  | [], buf => Outcome.ok buf
  | f :: fields, buf =>
    if read_all || bitmap_is_set table.read_set f.field_index then
      match read_row_field dbug m_row f buf with
      | Outcome.ok buf => read_row_fields dbug m_row table read_all fields buf
      | Outcome.assert_fail => Outcome.assert_fail
      | Outcome.undefined => Outcome.undefined
    else
      read_row_fields dbug m_row table read_all fields buf

/-- Source `table_host_cache::read_row_values`: the table (which the call only
reads), the output record and the result code. -/
def table_host_cache.read_row_values (dbug : Bool) (t : table_host_cache) (table : TABLE)
    (buf : row_buffer) (fields : List Field) (read_all : Bool) :
    Outcome (table_host_cache × row_buffer × Int) :=
  if dbug && t.m_row.isNone then Outcome.assert_fail
  else if dbug && table.null_bytes != 1 then Outcome.assert_fail
  else
    let buf := { buf with null_flag := fun _ => false }
    match read_row_fields dbug t.current_row table read_all fields buf with
    | Outcome.ok buf => Outcome.ok (t, buf, 0)
    | Outcome.assert_fail => Outcome.assert_fail
    | Outcome.undefined => Outcome.undefined

/-- The sixteen fields of the table, in schema order (`m_field_def` declares
16 columns). -/
def all_fields : List Field :=
  (List.range 16).map fun i => { field_index := i }

/-- Row memory as an allocation may hand it out: buffers of the declared
capacities filled with the byte 0xAA, and leftover numbers. -/
def junk_row : row_host_cache :=
  { m_ip := List.replicate 64 170, m_ip_length := 99,
    m_hostname := List.replicate 255 170, m_hostname_length := 77,
    m_host_validated := true,
    m_sum_blocking_errors := 11, m_count_nameinfo_transient_errors := 12,
    m_count_nameinfo_permanent_errors := 13, m_count_format_errors := 14,
    m_count_addrinfo_transient_errors := 15, m_count_addrinfo_permanent_errors := 16,
    m_count_fcrdns_errors := 17, m_count_host_acl_errors := 18,
    m_count_handshake_errors := 19, m_count_authentication_errors := 20,
    m_count_user_acl_errors := 21, m_count_local_errors := 22,
    m_count_unknown_errors := 23 }

/-- Counters of a host with 5 authentication errors and 2 local errors. -/
def sample_errors : Host_errors :=
  { m_blocking_errors := 0, m_nameinfo_transient_errors := 0,
    m_nameinfo_permanent_errors := 0, m_format_errors := 0,
    m_addrinfo_transient_errors := 0, m_addrinfo_permanent_errors := 0,
    m_FCrDNS_errors := 0, m_host_acl_errors := 0, m_handshake_errors := 0,
    m_authentication_errors := 5, m_user_acl_errors := 0, m_local_errors := 2,
    m_unknown_errors := 0 }

/-- The entry of 127.0.0.1, resolved to "localhost" and validated. -/
def sample_entry : Host_entry :=
  { ip_key := [49, 50, 55, 46, 48, 46, 48, 46, 49, 0, 0, 0],
    m_hostname := [108, 111, 99, 97, 108, 104, 111, 115, 116, 0],
    m_hostname_length := 9,
    m_host_validated := true,
    m_errors := sample_errors }

/-- The entry of 10.0.0.2, whose name is not resolved (hostname length 0). -/
def unresolved_entry : Host_entry :=
  { ip_key := [49, 48, 46, 48, 46, 48, 46, 50, 0],
    m_hostname := [0],
    m_hostname_length := 0,
    m_host_validated := false,
    m_errors := { sample_errors with m_authentication_errors := 0, m_unknown_errors := 1 } }

/-- A cache holding the two sample entries, with its lock never taken yet. -/
def sample_cache : hostname_cache :=
  { size := 2, entries := [sample_entry, unresolved_entry], events := [] }

/-- A session whose allocation succeeds and returns used memory. -/
def sample_thd : THD :=
  { alloc_ok := true, raw := fun _ => junk_row }

/-- A session that is out of memory. -/
def oom_thd : THD :=
  { alloc_ok := false, raw := fun _ => junk_row }

/-- The snapshot of `sample_cache`, the cursor before the first row. -/
def sample_table : table_host_cache :=
  { m_all_rows := some [make_row sample_entry junk_row, make_row unresolved_entry junk_row],
    m_row_count := 2, m_row := none,
    m_pos := { m_index := 0 }, m_next_pos := { m_index := 0 } }

/-- The snapshot of `sample_cache` with the cursor on row `i`, as `rnd_pos`
leaves it. -/
def sample_table_at (i : Nat) : table_host_cache :=
  { sample_table with m_pos := { m_index := i }, m_row := some i }

/-- An output record in use: every null indicator set and every column holding
the text "x". -/
def stale_buf : row_buffer :=
  { null_flag := fun _ => true, value := fun _ => field_value.varchar [120] }

/-- The table handle of a query that reads the columns of `cols` only. -/
def table_reading (cols : List Nat) : TABLE :=
  { null_bytes := 1, read_set := fun j => decide (j ∈ cols) }

/-- Source `field_types`: the name and the type of each column, in order. -/
def field_types : List (String × String) :=
  [ ("IP", "varchar(64)"),
    ("HOST", "varchar(255)"),
    ("HOST_VALIDATED", "enum('YES','NO')"),
    ("SUM_BLOCKING_ERRORS", "bigint(20)"),
    ("COUNT_NAMEINFO_TRANSIENT_ERRORS", "bigint(20)"),
    ("COUNT_NAMEINFO_PERMANENT_ERRORS", "bigint(20)"),
    ("COUNT_FORMAT_ERRORS", "bigint(20)"),
    ("COUNT_ADDRINFO_TRANSIENT_ERRORS", "bigint(20)"),
    ("COUNT_ADDRINFO_PERMANENT_ERRORS", "bigint(20)"),
    ("COUNT_FCRDNS_ERRORS", "bigint(20)"),
    ("COUNT_HOST_ACL_ERRORS", "bigint(20)"),
    ("COUNT_HANDSHAKE_ERRORS", "bigint(20)"),
    ("COUNT_AUTHENTICATION_ERRORS", "bigint(20)"),
    ("COUNT_USER_ACL_ERRORS", "bigint(20)"),
    ("COUNT_LOCAL_ERRORS", "bigint(20)"),
    ("COUNT_UNKNOWN_ERRORS", "bigint(20)") ]

/-- Source `table_host_cache::m_field_def`: the declared number of columns and
the column table. -/
def m_field_def : Nat × List (String × String) :=
  (16, field_types)

/-- The names of the columns of type `bigint(20)` that come after the column
named `after`, in schema order. -/
def bigint_columns_after (after : String) (cols : List (String × String)) : List String :=
  ((cols.dropWhile fun c => c.1 != after).drop 1).filterMap fun c =>
    if c.2 = "bigint(20)" then some c.1 else none

/-- How many holds of the cache lock are open after the events, counting from
`depth`: a lock call opens one and an unlock call closes one. -/
def lock_depth (depth : Int) : List lock_event → Int
  | [] => depth
  | lock_event.lock :: es => lock_depth (depth + 1) es
  | lock_event.unlock :: es => lock_depth (depth - 1) es

/-- A call on the cursor of an open table. -/
inductive cursor_op where
  | reset_position
  | rnd_next
  | rnd_pos (pos : PFS_simple_index)
  deriving DecidableEq, Repr

/-- The table after one cursor call. -/
def apply_op (dbug : Bool) (t : table_host_cache) : cursor_op → Outcome table_host_cache
  | cursor_op.reset_position => Outcome.ok t.reset_position
  | cursor_op.rnd_next => Outcome.ok t.rnd_next.1
  | cursor_op.rnd_pos pos =>
    match t.rnd_pos dbug pos with
    | Outcome.ok r => Outcome.ok r.1
    | Outcome.assert_fail => Outcome.assert_fail
    | Outcome.undefined => Outcome.undefined

/-- The table after a sequence of cursor calls, made in order. -/
def run_ops (dbug : Bool) : List cursor_op → table_host_cache → Outcome table_host_cache
  | [], t => Outcome.ok t
  | op :: ops, t =>
    match apply_op dbug t op with
    | Outcome.ok s => run_ops dbug ops s
    | Outcome.assert_fail => Outcome.assert_fail
    | Outcome.undefined => Outcome.undefined

/-- Whether every `rnd_pos` of the sequence is given an index below `n`. -/
def valid_positions (n : Nat) : List cursor_op → Bool
  | [] => true
  | cursor_op.rnd_pos pos :: ops => decide (pos.m_index < n) && valid_positions n ops
  | _ :: ops => valid_positions n ops

/-! ## Lemmas on the C string helpers and on `make_row` -/

theorem take_store_bytes (dst bytes : List Nat) (n : Nat) (h : n ≤ bytes.length) :
    (store_bytes dst bytes).take n = bytes.take n := by
  unfold store_bytes
  exact List.take_append_of_le_length h

theorem take_strcpy (dst src : List Nat) (n : Nat) (h : n ≤ strlen src) :
    (strcpy dst src).take n = (src.takeWhile (fun c => c != 0)).take n := by
  unfold strcpy
  rw [take_store_bytes _ _ _ (by simp only [List.length_append, List.length_singleton]; unfold strlen at h; omega)]
  exact List.take_append_of_le_length h

theorem strncpy_bytes_length (src : List Nat) (n : Nat) :
    ((src.takeWhile (fun c => c != 0)).take n
      ++ List.replicate (n - ((src.takeWhile (fun c => c != 0)).take n).length) 0).length = n := by
  simp only [List.length_append, List.length_replicate, List.length_take]
  omega

theorem take_strncpy (dst src : List Nat) (n : Nat) :
    (strncpy dst src n).take n =
      (src.takeWhile (fun c => c != 0)).take n
        ++ List.replicate (n - ((src.takeWhile (fun c => c != 0)).take n).length) 0 := by
  unfold strncpy
  rw [take_store_bytes _ _ _ (by rw [strncpy_bytes_length])]
  exact List.take_of_length_le (by rw [strncpy_bytes_length])

theorem make_row_m_ip_length (e : Host_entry) (r : row_host_cache) :
    (make_row e r).m_ip_length = strlen e.ip_key % UINT_MOD := by
  by_cases h : e.m_hostname_length > 0 <;> simp [make_row, h]

theorem make_row_m_ip (e : Host_entry) (r : row_host_cache) :
    (make_row e r).m_ip = strcpy r.m_ip e.ip_key := by
  by_cases h : e.m_hostname_length > 0 <;> simp [make_row, h]

theorem make_row_m_hostname_length (e : Host_entry) (r : row_host_cache) :
    (make_row e r).m_hostname_length = e.m_hostname_length := by
  by_cases h : e.m_hostname_length > 0 <;> simp [make_row, h]

theorem make_row_m_hostname (e : Host_entry) (r : row_host_cache) :
    (make_row e r).m_hostname =
      if e.m_hostname_length > 0 then strncpy r.m_hostname e.m_hostname e.m_hostname_length
      else r.m_hostname := by
  by_cases h : e.m_hostname_length > 0 <;> simp [make_row, h]

theorem make_row_counters (e : Host_entry) (r : row_host_cache) :
    (make_row e r).m_host_validated = e.m_host_validated
    ∧ (make_row e r).m_sum_blocking_errors = e.m_errors.m_blocking_errors
    ∧ (make_row e r).m_count_nameinfo_transient_errors = e.m_errors.m_nameinfo_transient_errors
    ∧ (make_row e r).m_count_nameinfo_permanent_errors = e.m_errors.m_nameinfo_permanent_errors
    ∧ (make_row e r).m_count_format_errors = e.m_errors.m_format_errors
    ∧ (make_row e r).m_count_addrinfo_transient_errors = e.m_errors.m_addrinfo_transient_errors
    ∧ (make_row e r).m_count_addrinfo_permanent_errors = e.m_errors.m_addrinfo_permanent_errors
    ∧ (make_row e r).m_count_fcrdns_errors = e.m_errors.m_FCrDNS_errors
    ∧ (make_row e r).m_count_host_acl_errors = e.m_errors.m_host_acl_errors
    ∧ (make_row e r).m_count_handshake_errors = e.m_errors.m_handshake_errors
    ∧ (make_row e r).m_count_authentication_errors = e.m_errors.m_authentication_errors
    ∧ (make_row e r).m_count_user_acl_errors = e.m_errors.m_user_acl_errors
    ∧ (make_row e r).m_count_local_errors = e.m_errors.m_local_errors
    ∧ (make_row e r).m_count_unknown_errors = e.m_errors.m_unknown_errors := by
  by_cases h : e.m_hostname_length > 0 <;> simp [make_row, h]

theorem read_row_field_make_row_raw (dbug : Bool) (e : Host_entry) (r1 r2 : row_host_cache)
    (f : Field) (buf : row_buffer) :
    read_row_field dbug (some (make_row e r1)) f buf
      = read_row_field dbug (some (make_row e r2)) f buf := by
  have hip : (make_row e r1).m_ip.take (make_row e r1).m_ip_length
      = (make_row e r2).m_ip.take (make_row e r2).m_ip_length := by
    simp only [make_row_m_ip, make_row_m_ip_length]
    rw [take_strcpy _ _ _ (Nat.mod_le _ _), take_strcpy _ _ _ (Nat.mod_le _ _)]
  have hho : 0 < e.m_hostname_length →
      (make_row e r1).m_hostname.take e.m_hostname_length
        = (make_row e r2).m_hostname.take e.m_hostname_length := by
    intro h
    simp only [make_row_m_hostname]
    rw [if_pos h, if_pos h, take_strncpy, take_strncpy]
  unfold read_row_field
  split
  · simp only [with_row, set_field_varchar_utf8, hip]
  · simp only [with_row, make_row_m_hostname_length]
    by_cases h : 0 < e.m_hostname_length
    · simp only [gt_iff_lt, if_pos h, set_field_varchar_utf8, hho h]
    · simp only [gt_iff_lt, if_neg h]
  all_goals rfl

/-! ## The copy loop of `materialize` -/

theorem materialize_loop_count (size : Nat) :
    ∀ (entries : List Host_entry) (index : Nat) (rows : List row_host_cache),
      index ≤ size →
      (materialize_loop size entries index rows).1 = min size (index + entries.length) := by
  intro entries
  induction entries with
  | nil => intro index rows h; simp [materialize_loop]; omega
  | cons e rest ih =>
    intro index rows h
    by_cases hlt : index < size
    · simp only [materialize_loop, if_pos hlt]
      rw [ih (index + 1) _ hlt]
      simp only [List.length_cons]
      congr 1
      omega
    · simp only [materialize_loop, if_neg hlt, List.length_cons]
      omega

theorem materialize_loop_get (size : Nat) :
    ∀ (entries : List Host_entry) (index : Nat) (rows : List row_host_cache) (j : Nat),
      (materialize_loop size entries index rows).2[j]? =
        if index ≤ j ∧ j < size then
          match entries[j - index]? with
          | some e => rows[j]?.map (make_row e)
          | none => rows[j]?
        else rows[j]? := by
  intro entries
  induction entries with
  | nil => intro index rows j; simp [materialize_loop]
  | cons e rest ih =>
    intro index rows j
    by_cases hlt : index < size
    · simp only [materialize_loop, if_pos hlt]
      rw [ih (index + 1) _ j]
      rcases Nat.lt_trichotomy j index with hj | hj | hj
      · have h1 : ¬ (index + 1 ≤ j ∧ j < size) := by omega
        have h2 : ¬ (index ≤ j ∧ j < size) := by omega
        rw [if_neg h1, if_neg h2]
        exact List.getElem?_modify_ne _ _ (by omega)
      · subst hj
        have h1 : ¬ (j + 1 ≤ j ∧ j < size) := by omega
        have h2 : (j ≤ j ∧ j < size) := by omega
        rw [if_neg h1, if_pos h2]
        simp
      · have h1 : (index + 1 ≤ j ∧ j < size) ↔ (index ≤ j ∧ j < size) := by omega
        have h3 : j - index = (j - (index + 1)) + 1 := by omega
        have h4 : (List.modify (make_row e) index rows)[j]? = rows[j]? :=
          List.getElem?_modify_ne _ _ (by omega)
        simp only [h1, h3, List.getElem?_cons_succ, h4]
    · simp only [materialize_loop, if_neg hlt]
      have h2 : ¬ (index ≤ j ∧ j < size) := by omega
      rw [if_neg h2]

/-! ## `materialize` on a new table -/

theorem materialize_new_empty (dbug : Bool) (thd : THD) (cache : hostname_cache)
    (h : cache.size = 0) :
    table_host_cache.materialize dbug table_host_cache.new thd cache
      = Outcome.ok (table_host_cache.new,
          { cache with events := cache.events ++ [lock_event.lock, lock_event.unlock] }) := by
  simp [table_host_cache.materialize, table_host_cache.new, hostname_cache_lock,
    hostname_cache_unlock, hostname_cache_size, h]

theorem materialize_new_oom (dbug : Bool) (thd : THD) (cache : hostname_cache)
    (h : thd.alloc_ok = false) :
    table_host_cache.materialize dbug table_host_cache.new thd cache
      = Outcome.ok (table_host_cache.new,
          { cache with events := cache.events ++ [lock_event.lock, lock_event.unlock] }) := by
  by_cases hs : cache.size = 0
  · exact materialize_new_empty dbug thd cache hs
  · simp [table_host_cache.materialize, table_host_cache.new, hostname_cache_lock,
      hostname_cache_unlock, hostname_cache_size, hs, THD.alloc, h]

theorem materialize_new_rows (dbug : Bool) (thd : THD) (cache : hostname_cache)
    (hs : cache.size ≠ 0) (h : thd.alloc_ok = true) :
    table_host_cache.materialize dbug table_host_cache.new thd cache
      = Outcome.ok
          ({ table_host_cache.new with
              m_all_rows := some (materialize_loop cache.size cache.entries 0
                ((List.range cache.size).map thd.raw)).2
              m_row_count := (materialize_loop cache.size cache.entries 0
                ((List.range cache.size).map thd.raw)).1 },
          { cache with events := cache.events ++ [lock_event.lock, lock_event.unlock] }) := by
  simp [table_host_cache.materialize, table_host_cache.new, hostname_cache_lock,
    hostname_cache_unlock, hostname_cache_size, hostname_cache_first, hs, THD.alloc, h]


theorem read_row_fields_congr (dbug : Bool) (r1 r2 : Option row_host_cache) (table : TABLE)
    (read_all : Bool)
    (h : ∀ f buf, read_row_field dbug r1 f buf = read_row_field dbug r2 f buf) :
    ∀ (fields : List Field) (buf : row_buffer),
      read_row_fields dbug r1 table read_all fields buf
        = read_row_fields dbug r2 table read_all fields buf := by
  intro fields
  induction fields with
  | nil => intro buf; rfl
  | cons f rest ih =>
    intro buf
    simp only [read_row_fields, h f buf]
    split
    · split
      · exact ih _
      · rfl
      · rfl
    · exact ih _

theorem materialize_new_get (dbug : Bool) (thd : THD) (cache : hostname_cache) :
    ∃ t c, table_host_cache.materialize dbug table_host_cache.new thd cache = Outcome.ok (t, c)
      ∧ c = { cache with events := cache.events ++ [lock_event.lock, lock_event.unlock] }
      ∧ t.m_row_count
          = (if thd.alloc_ok = true then min cache.size cache.entries.length else 0)
      ∧ ∀ i, i < t.m_row_count → ∃ e rows, cache.entries[i]? = some e
          ∧ t.m_all_rows = some rows ∧ rows[i]? = some (make_row e (thd.raw i)) := by
  by_cases hs : cache.size = 0
  · refine ⟨_, _, materialize_new_empty dbug thd cache hs, rfl, ?_, ?_⟩
    · simp [table_host_cache.new, hs]
    · intro i hi; simp [table_host_cache.new] at hi
  · cases h : thd.alloc_ok with
    | false =>
      refine ⟨_, _, materialize_new_oom dbug thd cache h, rfl, ?_, ?_⟩
      · simp [table_host_cache.new]
      · intro i hi; simp [table_host_cache.new] at hi
    | true =>
      refine ⟨_, _, materialize_new_rows dbug thd cache hs h, rfl, ?_, ?_⟩
      · show (materialize_loop cache.size cache.entries 0 _).1 = _
        rw [materialize_loop_count _ _ _ _ (Nat.zero_le _), Nat.zero_add]
        simp
      · intro i hi
        have hi2 : i < min cache.size cache.entries.length := by
          have := materialize_loop_count cache.size cache.entries 0
            ((List.range cache.size).map thd.raw) (Nat.zero_le _)
          rw [Nat.zero_add] at this
          rw [← this]; exact hi
        have hi3 : i < cache.size := lt_of_lt_of_le hi2 (Nat.min_le_left _ _)
        have hi4 : i < cache.entries.length := lt_of_lt_of_le hi2 (Nat.min_le_right _ _)
        refine ⟨cache.entries[i], _, List.getElem?_eq_getElem hi4, rfl, ?_⟩
        rw [materialize_loop_get]
        have hc : (0 ≤ i ∧ i < cache.size) := ⟨Nat.zero_le _, hi3⟩
        rw [if_pos hc]
        simp [List.getElem?_eq_getElem hi4, hi3]

theorem materialize_new_cursor (dbug : Bool) (thd : THD) (cache : hostname_cache)
    (t : table_host_cache) (c : hostname_cache)
    (h : table_host_cache.materialize dbug table_host_cache.new thd cache = Outcome.ok (t, c)) :
    t.m_row = none ∧ t.m_pos.m_index = 0 ∧ t.m_next_pos.m_index = 0 := by
  by_cases hs : cache.size = 0
  · rw [materialize_new_empty dbug thd cache hs] at h
    injection h with h; injection h with h1 _
    subst h1; exact ⟨rfl, rfl, rfl⟩
  · cases ha : thd.alloc_ok with
    | false =>
      rw [materialize_new_oom dbug thd cache ha] at h
      injection h with h; injection h with h1 _
      subst h1; exact ⟨rfl, rfl, rfl⟩
    | true =>
      rw [materialize_new_rows dbug thd cache hs ha] at h
      injection h with h; injection h with h1 _
      subst h1; exact ⟨rfl, rfl, rfl⟩


/-! ## Claims on the snapshot -/

/-- C1 (as amended): materialize on a new table returns, the row count it leaves
never exceeds the cache size read under the lock, it equals
min(size, length of the traversal) when the row allocation succeeds or the size
is 0, and it is 0 when the allocation fails. -/
theorem materialize_row_count (dbug : Bool) (thd : THD) (cache : hostname_cache) :
    ∃ t c, table_host_cache.materialize dbug table_host_cache.new thd cache = Outcome.ok (t, c)
      ∧ t.m_row_count ≤ hostname_cache_size cache
      ∧ ((thd.alloc_ok = true ∨ hostname_cache_size cache = 0) →
          t.m_row_count = min (hostname_cache_size cache) (hostname_cache_first cache).length)
      ∧ (thd.alloc_ok = false → t.m_row_count = 0) := by
  by_cases hs : cache.size = 0
  · refine ⟨_, _, materialize_new_empty dbug thd cache hs, ?_, ?_, ?_⟩
    · simp [table_host_cache.new]
    · intro _; simp [table_host_cache.new, hostname_cache_size, hs]
    · intro _; rfl
  · cases h : thd.alloc_ok with
    | false =>
      refine ⟨_, _, materialize_new_oom dbug thd cache h, ?_, ?_, ?_⟩
      · simp [table_host_cache.new]
      · intro h2
        rcases h2 with h2 | h2
        · cases h2
        · exact absurd h2 hs
      · intro _; rfl
    | true =>
      refine ⟨_, _, materialize_new_rows dbug thd cache hs h, ?_, ?_, ?_⟩
      · show (materialize_loop cache.size cache.entries 0 _).1 ≤ cache.size
        rw [materialize_loop_count _ _ _ _ (Nat.zero_le _)]
        exact Nat.min_le_left _ _
      · intro _
        show (materialize_loop cache.size cache.entries 0 _).1 = min cache.size cache.entries.length
        rw [materialize_loop_count _ _ _ _ (Nat.zero_le _), Nat.zero_add]
      · intro h2; cases h2

/-- C1, an instance of the amended claim: the sample cache (size 2, two
entries) gives row count 2 with a working allocator. -/
theorem materialize_row_count_witness :
    ∃ t c, table_host_cache.materialize true table_host_cache.new sample_thd sample_cache
        = Outcome.ok (t, c)
      ∧ t.m_row_count ≤ 2 ∧ t.m_row_count = 2 := by
  obtain ⟨t, c, h, h1, h2, _⟩ := materialize_row_count true sample_thd sample_cache
  exact ⟨t, c, h, h1, h2 (Or.inl rfl)⟩

/-- C1 as stated fails: with size 1, one entry in the traversal and a failed row
allocation, materialize leaves row count 0, which is not min(1, 1) = 1. -/
theorem materialize_row_count_not_min_on_failed_alloc :
    ∃ t c, table_host_cache.materialize false table_host_cache.new oom_thd
          { size := 1, entries := [sample_entry], events := [] } = Outcome.ok (t, c)
      ∧ t.m_row_count = 0
      ∧ t.m_row_count ≠ min
          (hostname_cache_size { size := 1, entries := [sample_entry], events := [] })
          (hostname_cache_first { size := 1, entries := [sample_entry], events := [] }).length :=
  ⟨_, _, rfl, rfl, by decide⟩

/-- C2 (as amended): the snapshot is the in-order projection of the traversal,
row i being make_row of the i-th entry written over slot i of the allocated
memory; and a second materialize on a cache with the same size and traversal,
whose allocation succeeds or fails like the first, gives the same row count and,
row by row, the same emitted field values, whatever the allocated memory held. -/
theorem materialize_snapshot_in_order (dbug : Bool) (thd : THD) (cache : hostname_cache) :
    ∃ t c, table_host_cache.materialize dbug table_host_cache.new thd cache = Outcome.ok (t, c)
      ∧ (∀ i, i < t.m_row_count → ∃ e rows, (hostname_cache_first cache)[i]? = some e
          ∧ t.m_all_rows = some rows ∧ rows[i]? = some (make_row e (thd.raw i)))
      ∧ (∀ (dbug2 : Bool) (thd2 : THD) (cache2 : hostname_cache),
          thd2.alloc_ok = thd.alloc_ok →
          hostname_cache_size cache2 = hostname_cache_size cache →
          hostname_cache_first cache2 = hostname_cache_first cache →
          ∃ t2 c2, table_host_cache.materialize dbug2 table_host_cache.new thd2 cache2
              = Outcome.ok (t2, c2)
            ∧ t2.m_row_count = t.m_row_count
            ∧ ∀ i, i < t.m_row_count → ∃ rows rows2 r r2,
                t.m_all_rows = some rows ∧ t2.m_all_rows = some rows2
                ∧ rows[i]? = some r ∧ rows2[i]? = some r2
                ∧ ∀ (dbg : Bool) (table : TABLE) (read_all : Bool) (fields : List Field)
                    (buf : row_buffer),
                    read_row_fields dbg (some r) table read_all fields buf
                      = read_row_fields dbg (some r2) table read_all fields buf) := by
  obtain ⟨t, c, h, _, hcount, hrows⟩ := materialize_new_get dbug thd cache
  refine ⟨t, c, h, hrows, ?_⟩
  intro dbug2 thd2 cache2 hok hsize hfirst
  obtain ⟨t2, c2, h2, _, hcount2, hrows2⟩ := materialize_new_get dbug2 thd2 cache2
  have hs : cache2.size = cache.size := hsize
  have hf : cache2.entries = cache.entries := hfirst
  have hc : t2.m_row_count = t.m_row_count := by
    rw [hcount, hcount2, hok, hs, hf]
  refine ⟨t2, c2, h2, hc, ?_⟩
  intro i hi
  obtain ⟨e, rows, he, hr, hri⟩ := hrows i hi
  obtain ⟨e2, rows2, he2, hr2, hri2⟩ := hrows2 i (hc ▸ hi)
  rw [hf, he] at he2
  injection he2 with he2
  subst he2
  refine ⟨rows, rows2, _, _, hr, hr2, hri, hri2, ?_⟩
  intro dbg table read_all fields buf
  exact read_row_fields_congr dbg _ _ table read_all
    (fun f b => read_row_field_make_row_raw dbg e _ _ f b) fields buf

/-- C2, an instance: the snapshot of the sample cache has the projection of the
first traversal entry in row 0. -/
theorem materialize_snapshot_in_order_witness :
    ∃ t c, table_host_cache.materialize true table_host_cache.new sample_thd sample_cache
        = Outcome.ok (t, c)
      ∧ ∃ e rows, (hostname_cache_first sample_cache)[0]? = some e
          ∧ t.m_all_rows = some rows ∧ rows[0]? = some (make_row e junk_row) := by
  obtain ⟨t, c, h, hrows, _⟩ := materialize_snapshot_in_order true sample_thd sample_cache
  have h2 : table_host_cache.materialize true table_host_cache.new sample_thd sample_cache
      = Outcome.ok (sample_table,
          { sample_cache with events := [lock_event.lock, lock_event.unlock] }) := rfl
  rw [h2] at h
  injection h with h; injection h with h1 _
  subst h1
  exact ⟨_, _, h2, hrows 0 (by decide)⟩

/-- C2 as stated fails: two materialize calls on the same unmodified cache, the
first with a working allocator and the second out of memory, leave row counts 2
and 0. -/
theorem materialize_twice_row_counts_differ :
    ∃ t1 c1 t2 c2,
      table_host_cache.materialize false table_host_cache.new sample_thd sample_cache
        = Outcome.ok (t1, c1)
      ∧ table_host_cache.materialize false table_host_cache.new oom_thd sample_cache
        = Outcome.ok (t2, c2)
      ∧ t1.m_row_count = 2 ∧ t2.m_row_count = 0 ∧ t1.m_row_count ≠ t2.m_row_count :=
  ⟨_, _, _, _, rfl, rfl, rfl, rfl, by decide⟩

/-! ## The cursor -/

theorem rnd_next_lt (t : table_host_cache) (h : t.m_next_pos.m_index < t.m_row_count) :
    t.rnd_next =
      ({ t with m_pos := { m_index := t.m_next_pos.m_index },
                m_row := some t.m_next_pos.m_index,
                m_next_pos := { m_index := t.m_next_pos.m_index + 1 } }, 0) := by
  simp [table_host_cache.rnd_next, PFS_simple_index.set_at, PFS_simple_index.set_after, h]

theorem rnd_next_ge (t : table_host_cache) (h : ¬ t.m_next_pos.m_index < t.m_row_count) :
    t.rnd_next =
      ({ t with m_pos := { m_index := t.m_next_pos.m_index }, m_row := none },
        HA_ERR_END_OF_FILE) := by
  simp [table_host_cache.rnd_next, PFS_simple_index.set_at, h]

theorem rnd_next_iter_frame :
    ∀ (k : Nat) (t : table_host_cache), t.m_next_pos.m_index + k ≤ t.m_row_count →
      (rnd_next_iter k t).m_next_pos.m_index = t.m_next_pos.m_index + k
      ∧ (rnd_next_iter k t).m_all_rows = t.m_all_rows
      ∧ (rnd_next_iter k t).m_row_count = t.m_row_count := by
  intro k
  induction k with
  | zero => intro t _; exact ⟨rfl, rfl, rfl⟩
  | succ n ih =>
    intro t h
    have hlt : t.m_next_pos.m_index < t.m_row_count := by omega
    simp only [rnd_next_iter, rnd_next_lt t hlt]
    have := ih { t with m_pos := { m_index := t.m_next_pos.m_index },
                        m_row := some t.m_next_pos.m_index,
                        m_next_pos := { m_index := t.m_next_pos.m_index + 1 } }
      (by simp only; omega)
    obtain ⟨h1, h2, h3⟩ := this
    refine ⟨?_, h2, h3⟩
    rw [h1]; simp only; omega

theorem rnd_next_after_iter (t : table_host_cache) (h0 : t.m_next_pos.m_index = 0) (k : Nat)
    (hk : k < t.m_row_count) :
    (rnd_next_iter k t).rnd_next =
      ({ t with m_pos := { m_index := k }, m_row := some k, m_next_pos := { m_index := k + 1 } },
        0) := by
  obtain ⟨h1, h2, h3⟩ := rnd_next_iter_frame k t (by omega)
  rw [h0, Nat.zero_add] at h1
  rw [rnd_next_lt _ (by rw [h1, h3]; exact hk), h1]
  simp only [h2, h3]

theorem rnd_next_iter_succ :
    ∀ (k : Nat) (t : table_host_cache),
      rnd_next_iter (k + 1) t = (rnd_next_iter k t).rnd_next.1 := by
  intro k
  induction k with
  | zero => intro t; rfl
  | succ n ih =>
    intro t
    show rnd_next_iter (n + 1) t.rnd_next.1 = (rnd_next_iter n t.rnd_next.1).rnd_next.1
    exact ih _

/-- C3: from a freshly created table, or right after reset_position, call number
k+1 of rnd_next (for every k below the row count) returns 0, makes k the current
index and exposes the snapshot row at index k; two different calls of the scan
stand at different positions. -/
theorem rnd_next_scan (t : table_host_cache)
    (hstart : (∃ s : table_host_cache, t = s.reset_position)
      ∨ ∃ dbug thd cache c, table_host_cache.create dbug thd cache = Outcome.ok (t, c)) :
    (∀ k, k < t.m_row_count →
        (rnd_next_iter k t).rnd_next.2 = 0
        ∧ (rnd_next_iter k t).rnd_next.1.m_pos.m_index = k
        ∧ (rnd_next_iter k t).rnd_next.1.m_row = some k
        ∧ (rnd_next_iter k t).rnd_next.1.current_row
            = t.m_all_rows.bind (fun rows => rows[k]?)
        ∧ (rnd_next_iter k t).rnd_next.1 = rnd_next_iter (k + 1) t)
    ∧ ∀ k1 k2, k1 < t.m_row_count → k2 < t.m_row_count → k1 ≠ k2 →
        (rnd_next_iter (k1 + 1) t).m_pos ≠ (rnd_next_iter (k2 + 1) t).m_pos := by
  have h0 : t.m_next_pos.m_index = 0 := by
    rcases hstart with ⟨s, hs⟩ | ⟨dbug, thd, cache, c, hc⟩
    · subst hs; rfl
    · exact (materialize_new_cursor dbug thd cache t c hc).2.2
  have hcall := rnd_next_after_iter t h0
  refine ⟨?_, ?_⟩
  · intro k hk
    rw [hcall k hk]
    refine ⟨rfl, rfl, rfl, ?_, ?_⟩
    · cases hrows : t.m_all_rows <;> simp [table_host_cache.current_row, hrows]
    · rw [rnd_next_iter_succ, hcall k hk]
  · intro k1 k2 hk1 hk2 hne
    rw [rnd_next_iter_succ, rnd_next_iter_succ, hcall k1 hk1, hcall k2 hk2]
    simp only [ne_eq, PFS_simple_index.mk.injEq]
    exact hne

/-- C3, an instance: on the snapshot of the sample cache the second rnd_next
returns 0 and exposes row 1. -/
theorem rnd_next_scan_witness :
    (rnd_next_iter 1 sample_table).rnd_next.2 = 0
    ∧ (rnd_next_iter 1 sample_table).rnd_next.1.m_row = some 1
    ∧ (rnd_next_iter 1 sample_table).rnd_next.1.current_row
        = some (make_row unresolved_entry junk_row) := by
  have h := (rnd_next_scan sample_table
    (Or.inr ⟨true, sample_thd, sample_cache, _, rfl⟩)).1 1 (by decide)
  exact ⟨h.1, h.2.2.1, h.2.2.2.1⟩

/-- C4: when the next index is not below the row count, rnd_next returns
HA_ERR_END_OF_FILE (which is not the success code) and exposes no row, and after
any number of further rnd_next calls one more call gives the same result code
and the same state again. -/
theorem rnd_next_end_of_file_persistent (t : table_host_cache)
    (hend : ¬ t.m_next_pos.m_index < t.m_row_count) :
    t.rnd_next.2 = HA_ERR_END_OF_FILE
    ∧ HA_ERR_END_OF_FILE ≠ 0
    ∧ t.rnd_next.1.m_row = none
    ∧ t.rnd_next.1.current_row = none
    ∧ ∀ n, rnd_next_iter n t.rnd_next.1 = t.rnd_next.1
        ∧ (rnd_next_iter n t.rnd_next.1).rnd_next = (t.rnd_next.1, HA_ERR_END_OF_FILE) := by
  have h1 := rnd_next_ge t hend
  have hfix : t.rnd_next.1.rnd_next = (t.rnd_next.1, HA_ERR_END_OF_FILE) := by
    rw [h1]
    exact rnd_next_ge _ hend
  have hiter : ∀ n, rnd_next_iter n t.rnd_next.1 = t.rnd_next.1 := by
    intro n
    induction n with
    | zero => rfl
    | succ m ih => rw [rnd_next_iter_succ, ih, hfix]
  refine ⟨by rw [h1], by decide, by rw [h1], ?_, ?_⟩
  · rw [h1]; rfl
  · intro n
    refine ⟨hiter n, ?_⟩
    rw [hiter n, hfix]

/-- C4, an instance: after the two rows of the sample snapshot, the third,
fourth and fifth rnd_next all return HA_ERR_END_OF_FILE. -/
theorem rnd_next_end_of_file_persistent_witness :
    (rnd_next_iter 2 sample_table).rnd_next.2 = HA_ERR_END_OF_FILE
    ∧ (rnd_next_iter 2 sample_table).rnd_next.1.m_row = none
    ∧ (rnd_next_iter 2 (rnd_next_iter 2 sample_table).rnd_next.1).rnd_next
        = ((rnd_next_iter 2 sample_table).rnd_next.1, HA_ERR_END_OF_FILE) := by
  have h := rnd_next_end_of_file_persistent (rnd_next_iter 2 sample_table) (by decide)
  exact ⟨h.1, h.2.2.1, (h.2.2.2.2 2).2⟩

/-- C5: for every index i below the row count, rnd_pos at i returns 0 and exposes
the snapshot row at index i, which is the row exposed by the rnd_next call of a
scan from reset_position that makes i the current index. -/
theorem rnd_pos_same_row_as_scan (dbug : Bool) (t : table_host_cache) (i : Nat)
    (hi : i < t.m_row_count) :
    ∃ s, t.rnd_pos dbug { m_index := i } = Outcome.ok (s, 0)
      ∧ s.m_pos.m_index = i
      ∧ s.m_row = some i
      ∧ s.current_row = t.m_all_rows.bind (fun rows => rows[i]?)
      ∧ (rnd_next_iter i t.reset_position).rnd_next.2 = 0
      ∧ (rnd_next_iter i t.reset_position).rnd_next.1.m_pos.m_index = i
      ∧ s.m_row = (rnd_next_iter i t.reset_position).rnd_next.1.m_row
      ∧ s.current_row = (rnd_next_iter i t.reset_position).rnd_next.1.current_row := by
  have hcall := rnd_next_after_iter t.reset_position rfl i hi
  have h1 : (rnd_next_iter i t.reset_position).rnd_next.2 = 0 := by rw [hcall]
  have h2 : (rnd_next_iter i t.reset_position).rnd_next.1.m_pos.m_index = i := by rw [hcall]
  have h3 : (rnd_next_iter i t.reset_position).rnd_next.1.m_row = some i := by rw [hcall]
  have h4 : (rnd_next_iter i t.reset_position).rnd_next.1.current_row
      = t.m_all_rows.bind (fun rows => rows[i]?) := by
    rw [hcall]
    cases hrows : t.m_all_rows <;>
      simp [table_host_cache.current_row, table_host_cache.reset_position, hrows]
  have hcur : ({ t.set_position { m_index := i } with m_row := some i } :
      table_host_cache).current_row = t.m_all_rows.bind (fun rows => rows[i]?) := by
    cases hrows : t.m_all_rows <;>
      simp [table_host_cache.current_row, table_host_cache.set_position, hrows]
  refine ⟨{ t.set_position { m_index := i } with m_row := some i }, ?_, rfl, rfl, hcur,
    h1, h2, h3.symm, ?_⟩
  · simp [table_host_cache.rnd_pos, table_host_cache.set_position, hi]
  · rw [hcur, h4]

/-- C5, an instance: on the sample snapshot rnd_pos at index 1 exposes the row
of the unresolved entry, like the second rnd_next of a scan. -/
theorem rnd_pos_same_row_as_scan_witness :
    ∃ s, sample_table.rnd_pos true { m_index := 1 } = Outcome.ok (s, 0)
      ∧ s.current_row = some (make_row unresolved_entry junk_row)
      ∧ s.current_row = (rnd_next_iter 1 sample_table.reset_position).rnd_next.1.current_row := by
  obtain ⟨s, h1, _, _, h4, _, _, _, h8⟩ :=
    rnd_pos_same_row_as_scan true sample_table 1 (by decide)
  exact ⟨s, h1, h4, h8⟩

/-- C6: when the size read under the lock is 0, materialize on a new table
leaves no row array and row count 0, and the first rnd_next returns
HA_ERR_END_OF_FILE, no other code, and exposes no row. -/
theorem materialize_empty_then_end_of_file (dbug : Bool) (thd : THD) (cache : hostname_cache)
    (hsize : hostname_cache_size cache = 0) :
    ∃ t c, table_host_cache.materialize dbug table_host_cache.new thd cache = Outcome.ok (t, c)
      ∧ t.m_all_rows = none
      ∧ t.m_row_count = 0
      ∧ t.rnd_next.2 = HA_ERR_END_OF_FILE
      ∧ t.rnd_next.1.m_row = none
      ∧ t.rnd_next.1.current_row = none :=
  ⟨_, _, materialize_new_empty dbug thd cache hsize, rfl, rfl, rfl, rfl, rfl⟩

/-- C6, an instance: an idle cache, with a debug build. -/
theorem materialize_empty_then_end_of_file_witness :
    ∃ t c, table_host_cache.materialize true table_host_cache.new sample_thd
        { size := 0, entries := [], events := [] } = Outcome.ok (t, c)
      ∧ t.m_all_rows = none
      ∧ t.m_row_count = 0
      ∧ t.rnd_next.2 = HA_ERR_END_OF_FILE
      ∧ t.rnd_next.1.m_row = none
      ∧ t.rnd_next.1.current_row = none :=
  materialize_empty_then_end_of_file true sample_thd { size := 0, entries := [], events := [] } rfl

/-! ## The field emitter -/

theorem read_row_field_frame (dbug : Bool) (m_row : Option row_host_cache) (f : Field)
    (buf b : row_buffer) (h : read_row_field dbug m_row f buf = Outcome.ok b) (j : Nat)
    (hj : j ≠ f.field_index) :
    b.value j = buf.value j ∧ b.null_flag j = buf.null_flag j := by
  cases m_row with
  | none =>
    unfold read_row_field at h
    split at h
    all_goals first
      | (simp only [with_row] at h; cases h)
      | (split at h
         · cases h
         · injection h with h; subst h; exact ⟨rfl, rfl⟩)
  | some r =>
    unfold read_row_field at h
    split at h
    case h_2 =>
      simp only [with_row] at h
      injection h with h
      subst h
      by_cases hl : r.m_hostname_length > 0
      · simp [hl, set_field_varchar_utf8, hj]
      · simp [hl, Field.set_null, hj]
    case h_17 =>
      split at h
      · cases h
      · injection h with h; subst h; exact ⟨rfl, rfl⟩
    all_goals
      simp only [with_row] at h
      injection h with h
      subst h
      simp [set_field_varchar_utf8, set_field_enum, set_field_ulonglong, hj]

theorem read_row_field_ok (dbug : Bool) (r : row_host_cache) (f : Field) (buf : row_buffer)
    (h : dbug = false ∨ f.field_index < 16) :
    ∃ b, read_row_field dbug (some r) f buf = Outcome.ok b := by
  unfold read_row_field
  split
  case h_17 h0 h1 h2 h3 h4 h5 h6 h7 h8 h9 h10 h11 h12 h13 h14 h15 =>
    rcases h with h | h
    · subst h; exact ⟨_, rfl⟩
    · exfalso
      have : f.field_index < 16 := h
      interval_cases hidx : f.field_index <;> simp_all
  all_goals exact ⟨_, rfl⟩

theorem read_row_fields_preserve (dbug : Bool) (m_row : Option row_host_cache) (table : TABLE)
    (read_all : Bool) (Q : row_buffer → Prop)
    (hstep : ∀ f buf b, (read_all || bitmap_is_set table.read_set f.field_index) = true →
      Q buf → read_row_field dbug m_row f buf = Outcome.ok b → Q b) :
    ∀ (fields : List Field) (buf out : row_buffer), Q buf →
      read_row_fields dbug m_row table read_all fields buf = Outcome.ok out → Q out := by
  intro fields
  induction fields with
  | nil =>
    intro buf out hq h
    simp only [read_row_fields] at h
    injection h with h; subst h; exact hq
  | cons f rest ih =>
    intro buf out hq h
    simp only [read_row_fields] at h
    by_cases hr : (read_all || bitmap_is_set table.read_set f.field_index) = true
    · rw [if_pos hr] at h
      cases hs : read_row_field dbug m_row f buf with
      | ok b =>
        rw [hs] at h
        exact ih b out (hstep f buf b hr hq hs) h
      | assert_fail => rw [hs] at h; cases h
      | undefined => rw [hs] at h; cases h
    · rw [if_neg hr] at h
      exact ih buf out hq h

theorem read_row_fields_establish (dbug : Bool) (m_row : Option row_host_cache) (table : TABLE)
    (read_all : Bool) (Q : row_buffer → Prop) (j : Nat)
    (hkeep : ∀ f buf b, (read_all || bitmap_is_set table.read_set f.field_index) = true →
      Q buf → read_row_field dbug m_row f buf = Outcome.ok b → Q b)
    (hset : ∀ f buf b, f.field_index = j →
      read_row_field dbug m_row f buf = Outcome.ok b → Q b) :
    ∀ (fields : List Field) (buf out : row_buffer),
      (∃ f ∈ fields, f.field_index = j
        ∧ (read_all || bitmap_is_set table.read_set f.field_index) = true) →
      read_row_fields dbug m_row table read_all fields buf = Outcome.ok out → Q out := by
  intro fields
  induction fields with
  | nil =>
    intro buf out hmem _
    obtain ⟨f, hf, _⟩ := hmem
    cases hf
  | cons f rest ih =>
    intro buf out hmem h
    simp only [read_row_fields] at h
    obtain ⟨g, hg, hgj, hgr⟩ := hmem
    by_cases hr : (read_all || bitmap_is_set table.read_set f.field_index) = true
    · rw [if_pos hr] at h
      cases hs : read_row_field dbug m_row f buf with
      | ok b =>
        rw [hs] at h
        by_cases hfj : f.field_index = j
        · exact read_row_fields_preserve dbug m_row table read_all Q hkeep rest b out
            (hset f buf b hfj hs) h
        · rcases List.mem_cons.mp hg with hgf | hgrest
          · subst hgf; exact absurd hgj hfj
          · exact ih b out ⟨g, hgrest, hgj, hgr⟩ h
      | assert_fail => rw [hs] at h; cases h
      | undefined => rw [hs] at h; cases h
    · rw [if_neg hr] at h
      rcases List.mem_cons.mp hg with hgf | hgrest
      · subst hgf; exact absurd hgr hr
      · exact ih buf out ⟨g, hgrest, hgj, hgr⟩ h

theorem read_row_fields_ok (dbug : Bool) (r : row_host_cache) (table : TABLE)
    (read_all : Bool) :
    ∀ (fields : List Field) (buf : row_buffer),
      (dbug = false ∨ ∀ f ∈ fields,
        (read_all || bitmap_is_set table.read_set f.field_index) = true → f.field_index < 16) →
      ∃ out, read_row_fields dbug (some r) table read_all fields buf = Outcome.ok out := by
  intro fields
  induction fields with
  | nil => intro buf _; exact ⟨buf, rfl⟩
  | cons f rest ih =>
    intro buf hv
    have hrest : dbug = false ∨ ∀ g ∈ rest,
        (read_all || bitmap_is_set table.read_set g.field_index) = true → g.field_index < 16 := by
      rcases hv with hv | hv
      · exact Or.inl hv
      · exact Or.inr (fun g hg => hv g (List.mem_cons_of_mem _ hg))
    simp only [read_row_fields]
    by_cases hr : (read_all || bitmap_is_set table.read_set f.field_index) = true
    · rw [if_pos hr]
      have hf : dbug = false ∨ f.field_index < 16 := by
        rcases hv with hv | hv
        · exact Or.inl hv
        · exact Or.inr (hv f (List.mem_cons_self _ _) hr)
      obtain ⟨b, hb⟩ := read_row_field_ok dbug r f buf hf
      rw [hb]
      exact ih b hrest
    · rw [if_neg hr]
      exact ih buf hrest

theorem current_row_some_m_row (t : table_host_cache) (r : row_host_cache)
    (h : t.current_row = some r) : t.m_row.isNone = false := by
  cases hm : t.m_row with
  | none => simp [table_host_cache.current_row, hm] at h
  | some i => rfl

theorem read_row_values_of_fields (dbug : Bool) (t : table_host_cache) (table : TABLE)
    (buf out : row_buffer) (fields : List Field) (read_all : Bool) (r : row_host_cache)
    (hrow : t.current_row = some r) (hnull : table.null_bytes = 1)
    (h : read_row_fields dbug (some r) table read_all fields
      { buf with null_flag := fun _ => false } = Outcome.ok out) :
    t.read_row_values dbug table buf fields read_all = Outcome.ok (t, out, 0) := by
  simp [table_host_cache.read_row_values, current_row_some_m_row t r hrow, hnull, hrow, h]

theorem read_row_values_ok_inv (dbug : Bool) (t s : table_host_cache) (table : TABLE)
    (buf out : row_buffer) (fields : List Field) (read_all : Bool) (rc : Int)
    (h : t.read_row_values dbug table buf fields read_all = Outcome.ok (s, out, rc)) :
    s = t ∧ rc = 0
    ∧ read_row_fields dbug t.current_row table read_all fields
        { buf with null_flag := fun _ => false } = Outcome.ok out := by
  unfold table_host_cache.read_row_values at h
  split at h
  · cases h
  · split at h
    · cases h
    · simp only at h
      split at h
      · rename_i b hb
        injection h with h
        injection h with h1 h2
        injection h2 with h2 h3
        subst h1 h2 h3
        exact ⟨rfl, rfl, hb⟩
      · cases h
      · cases h

theorem make_row_hostname_buffer (e : Host_entry) (r0 : row_host_cache) :
    0 < e.m_hostname_length →
      (make_row e r0).m_hostname_length ≤ (make_row e r0).m_hostname.length := by
  intro h
  rw [make_row_m_hostname_length, make_row_m_hostname, if_pos h]
  unfold strncpy store_bytes
  rw [List.length_append, strncpy_bytes_length]
  exact Nat.le_add_right _ _

/-- C7: when the HOST column (ordinal 1) is among the emitted fields of a valid
field list, read_row_values returns 0 and, if the stored hostname length is 0,
the HOST null indicator is set and the HOST value storage is as before the call
(no text, so no empty string, is written); if the stored length is positive, the
HOST null indicator is clear and HOST holds the first m_hostname_length bytes of
the stored hostname, a text of exactly that length for every row made by
make_row. -/
theorem read_row_values_host_null_or_text (dbug : Bool) (t : table_host_cache) (table : TABLE)
    (buf : row_buffer) (fields : List Field) (read_all : Bool) (r : row_host_cache)
    (hrow : t.current_row = some r) (hnull : table.null_bytes = 1)
    (hvalid : ∀ f ∈ fields, f.field_index < 16)
    (hhost : ∃ f ∈ fields, f.field_index = 1
      ∧ (read_all || bitmap_is_set table.read_set f.field_index) = true) :
    ∃ out, t.read_row_values dbug table buf fields read_all = Outcome.ok (t, out, 0)
      ∧ (r.m_hostname_length = 0 →
          out.null_flag 1 = true ∧ out.value 1 = buf.value 1)
      ∧ (0 < r.m_hostname_length →
          out.null_flag 1 = false
          ∧ out.value 1 = field_value.varchar (r.m_hostname.take r.m_hostname_length)
          ∧ ∀ e r0, r = make_row e r0 →
              (r.m_hostname.take r.m_hostname_length).length = r.m_hostname_length) := by
  obtain ⟨out, hout⟩ := read_row_fields_ok dbug r table read_all fields
    { buf with null_flag := fun _ => false } (Or.inr (fun f hf _ => hvalid f hf))
  refine ⟨out, read_row_values_of_fields dbug t table buf out fields read_all r hrow hnull hout,
    ?_, ?_⟩
  · intro hlen
    have hstep : ∀ (f : Field) (b b2 : row_buffer), f.field_index = 1 →
        read_row_field dbug (some r) f b = Outcome.ok b2 →
        b2.null_flag 1 = true ∧ b2.value 1 = b.value 1 := by
      intro f b b2 hf hs
      simp only [read_row_field, hf, with_row, hlen, gt_iff_lt, lt_self_iff_false,
        if_false] at hs
      injection hs with hs
      subst hs
      simp [Field.set_null, hf]
    constructor
    · refine read_row_fields_establish dbug (some r) table read_all
        (fun b => b.null_flag 1 = true) 1 ?_ ?_ fields _ out hhost hout
      · intro f b b2 _ hq hs
        by_cases hf : f.field_index = 1
        · exact (hstep f b b2 hf hs).1
        · rw [(read_row_field_frame dbug _ f b b2 hs 1 (fun h => hf h.symm)).2]; exact hq
      · intro f b b2 hf hs
        exact (hstep f b b2 hf hs).1
    · refine read_row_fields_preserve dbug (some r) table read_all
        (fun b => b.value 1 = buf.value 1) ?_ fields
        { buf with null_flag := fun _ => false } out rfl hout
      intro f b b2 _ hq hs
      by_cases hf : f.field_index = 1
      · rw [(hstep f b b2 hf hs).2]; exact hq
      · rw [(read_row_field_frame dbug _ f b b2 hs 1 (fun h => hf h.symm)).1]; exact hq
  · intro hlen
    have hstep : ∀ (f : Field) (b b2 : row_buffer), f.field_index = 1 →
        read_row_field dbug (some r) f b = Outcome.ok b2 →
        b2.null_flag 1 = b.null_flag 1
        ∧ b2.value 1 = field_value.varchar (r.m_hostname.take r.m_hostname_length) := by
      intro f b b2 hf hs
      simp only [read_row_field, hf, with_row, hlen, gt_iff_lt, if_true] at hs
      injection hs with hs
      subst hs
      simp [set_field_varchar_utf8, hf]
    refine ⟨?_, ?_, ?_⟩
    · refine read_row_fields_preserve dbug (some r) table read_all
        (fun b => b.null_flag 1 = false) ?_ fields
        { buf with null_flag := fun _ => false } out rfl hout
      intro f b b2 _ hq hs
      by_cases hf : f.field_index = 1
      · rw [(hstep f b b2 hf hs).1]; exact hq
      · rw [(read_row_field_frame dbug _ f b b2 hs 1 (fun h => hf h.symm)).2]; exact hq
    · refine read_row_fields_establish dbug (some r) table read_all
        (fun b => b.value 1 = field_value.varchar (r.m_hostname.take r.m_hostname_length)) 1
        ?_ ?_ fields _ out hhost hout
      · intro f b b2 _ hq hs
        by_cases hf : f.field_index = 1
        · exact (hstep f b b2 hf hs).2
        · rw [(read_row_field_frame dbug _ f b b2 hs 1 (fun h => hf h.symm)).1]; exact hq
      · intro f b b2 hf hs
        exact (hstep f b b2 hf hs).2
    · intro e r0 hr
      subst hr
      rw [List.length_take]
      have hl : 0 < e.m_hostname_length := by
        rw [make_row_m_hostname_length] at hlen; exact hlen
      exact Nat.min_eq_left (make_row_hostname_buffer e r0 hl)

/-- C7, two instances on the sample snapshot, HOST being the only requested
column: the row of the unresolved entry sets the null indicator and leaves the
old text in place, the row of 127.0.0.1 stores "localhost" and is not null. -/
theorem read_row_values_host_null_or_text_witness :
    (∃ out, (sample_table_at 1).read_row_values true (table_reading [1]) stale_buf all_fields
          false = Outcome.ok (sample_table_at 1, out, 0)
        ∧ out.null_flag 1 = true ∧ out.value 1 = field_value.varchar [120])
    ∧ (∃ out, (sample_table_at 0).read_row_values true (table_reading [1]) stale_buf all_fields
          false = Outcome.ok (sample_table_at 0, out, 0)
        ∧ out.null_flag 1 = false
        ∧ out.value 1 = field_value.varchar [108, 111, 99, 97, 108, 104, 111, 115, 116]) := by
  constructor
  · obtain ⟨out, h, h0, _⟩ := read_row_values_host_null_or_text true (sample_table_at 1)
      (table_reading [1]) stale_buf all_fields false (make_row unresolved_entry junk_row)
      rfl rfl (by decide) ⟨{ field_index := 1 }, by decide, rfl, rfl⟩
    exact ⟨out, h, h0 rfl⟩
  · obtain ⟨out, h, _, h1⟩ := read_row_values_host_null_or_text true (sample_table_at 0)
      (table_reading [1]) stale_buf all_fields false (make_row sample_entry junk_row)
      rfl rfl (by decide) ⟨{ field_index := 1 }, by decide, rfl, rfl⟩
    have h2 := h1 (by decide)
    exact ⟨out, h, h2.1, h2.2.1⟩

theorem read_row_fields_ulonglong (dbug : Bool) (r : row_host_cache) (table : TABLE)
    (read_all : Bool) (j v : Nat)
    (hstep : ∀ (f : Field) (b : row_buffer), f.field_index = j →
      read_row_field dbug (some r) f b = Outcome.ok (set_field_ulonglong f v b))
    (fields : List Field) (buf out : row_buffer)
    (hmem : ∃ f ∈ fields, f.field_index = j
      ∧ (read_all || bitmap_is_set table.read_set f.field_index) = true)
    (hout : read_row_fields dbug (some r) table read_all fields buf = Outcome.ok out) :
    out.value j = field_value.ulonglong v := by
  have hset : ∀ (f : Field) (b b2 : row_buffer), f.field_index = j →
      read_row_field dbug (some r) f b = Outcome.ok b2 →
      b2.value j = field_value.ulonglong v := by
    intro f b b2 hf hs
    rw [hstep f b hf] at hs
    injection hs with hs
    subst hs
    simp [set_field_ulonglong, hf]
  refine read_row_fields_establish dbug (some r) table read_all
    (fun b => b.value j = field_value.ulonglong v) j ?_ hset fields buf out hmem hout
  intro f b b2 _ hq hs
  by_cases hf : f.field_index = j
  · exact hset f b b2 hf hs
  · rw [(read_row_field_frame dbug _ f b b2 hs j (fun h => hf h.symm)).1]; exact hq

theorem mem_all_fields (j : Nat) (hj : j < 16) :
    ({ field_index := j } : Field) ∈ all_fields :=
  List.mem_map.mpr ⟨j, List.mem_range.mpr hj, rfl⟩

theorem all_fields_valid : ∀ f ∈ all_fields, f.field_index < 16 := by
  decide

/-- C8: for every cache entry, when the current row is make_row of the entry and
all sixteen columns are emitted, read_row_values returns 0 and the columns 3 to
15 hold the entry's counters, each its own: 3 blocking errors, 4 nameinfo
transient, 5 nameinfo permanent, 6 format, 7 addrinfo transient, 8 addrinfo
permanent, 9 FCrDNS, 10 host ACL, 11 handshake, 12 authentication, 13 user ACL,
14 local, 15 unknown. -/
theorem counters_copied_verbatim (dbug : Bool) (e : Host_entry) (r0 : row_host_cache)
    (t : table_host_cache) (table : TABLE) (buf : row_buffer) (read_all : Bool)
    (hrow : t.current_row = some (make_row e r0)) (hnull : table.null_bytes = 1)
    (hreq : ∀ j, j < 16 → (read_all || bitmap_is_set table.read_set j) = true) :
    ∃ out, t.read_row_values dbug table buf all_fields read_all = Outcome.ok (t, out, 0)
      ∧ out.value 3 = field_value.ulonglong e.m_errors.m_blocking_errors
      ∧ out.value 4 = field_value.ulonglong e.m_errors.m_nameinfo_transient_errors
      ∧ out.value 5 = field_value.ulonglong e.m_errors.m_nameinfo_permanent_errors
      ∧ out.value 6 = field_value.ulonglong e.m_errors.m_format_errors
      ∧ out.value 7 = field_value.ulonglong e.m_errors.m_addrinfo_transient_errors
      ∧ out.value 8 = field_value.ulonglong e.m_errors.m_addrinfo_permanent_errors
      ∧ out.value 9 = field_value.ulonglong e.m_errors.m_FCrDNS_errors
      ∧ out.value 10 = field_value.ulonglong e.m_errors.m_host_acl_errors
      ∧ out.value 11 = field_value.ulonglong e.m_errors.m_handshake_errors
      ∧ out.value 12 = field_value.ulonglong e.m_errors.m_authentication_errors
      ∧ out.value 13 = field_value.ulonglong e.m_errors.m_user_acl_errors
      ∧ out.value 14 = field_value.ulonglong e.m_errors.m_local_errors
      ∧ out.value 15 = field_value.ulonglong e.m_errors.m_unknown_errors := by
  obtain ⟨out, hout⟩ := read_row_fields_ok dbug (make_row e r0) table read_all all_fields
    { buf with null_flag := fun _ => false } (Or.inr (fun f hf _ => all_fields_valid f hf))
  have key : ∀ (j v : Nat), j < 16 →
      (∀ (f : Field) (b : row_buffer), f.field_index = j →
        read_row_field dbug (some (make_row e r0)) f b
          = Outcome.ok (set_field_ulonglong f v b)) →
      out.value j = field_value.ulonglong v := by
    intro j v hj hstep
    exact read_row_fields_ulonglong dbug (make_row e r0) table read_all j v hstep all_fields _ out
      ⟨{ field_index := j }, mem_all_fields j hj, rfl, hreq j hj⟩ hout
  refine ⟨out,
    read_row_values_of_fields dbug t table buf out all_fields read_all _ hrow hnull hout,
    key 3 _ (by decide) ?_, key 4 _ (by decide) ?_, key 5 _ (by decide) ?_,
    key 6 _ (by decide) ?_, key 7 _ (by decide) ?_, key 8 _ (by decide) ?_,
    key 9 _ (by decide) ?_, key 10 _ (by decide) ?_, key 11 _ (by decide) ?_,
    key 12 _ (by decide) ?_, key 13 _ (by decide) ?_, key 14 _ (by decide) ?_,
    key 15 _ (by decide) ?_⟩
  all_goals
    intro f b hf
    simp only [read_row_field, hf, with_row]
    rfl

/-- C8, the instance of the claim: an entry with authentication count 5, local
count 2 and every other counter 0 emits 5 in column 12, 2 in column 14 and 0 in
every other counter column. -/
theorem counters_copied_verbatim_witness :
    ∃ out, (sample_table_at 0).read_row_values true (table_reading []) stale_buf all_fields true
        = Outcome.ok (sample_table_at 0, out, 0)
      ∧ out.value 12 = field_value.ulonglong 5
      ∧ out.value 14 = field_value.ulonglong 2
      ∧ ∀ j ∈ [3, 4, 5, 6, 7, 8, 9, 10, 11, 13, 15], out.value j = field_value.ulonglong 0 := by
  obtain ⟨out, h, h3, h4, h5, h6, h7, h8, h9, h10, h11, h12, h13, h14, h15⟩ :=
    counters_copied_verbatim true sample_entry junk_row (sample_table_at 0) (table_reading [])
      stale_buf true rfl rfl (fun _ _ => rfl)
  refine ⟨out, h, h12, h14, ?_⟩
  intro j hj
  simp only [List.mem_cons, List.mem_singleton, List.not_mem_nil, or_false] at hj
  rcases hj with h | h | h | h | h | h | h | h | h | h | h <;> subst h <;> assumption

/-- C9: with read_all false, for every table state, output record and field
list, a read_row_values call that returns leaves the value storage of every
column outside the requested set as it was before the call; and the call does
return, with code 0, whenever the cursor is on a row, the record has one null
byte and the field ordinals are below 16. -/
theorem read_row_values_frame (dbug : Bool) (t : table_host_cache) (table : TABLE)
    (buf : row_buffer) (fields : List Field) :
    (∀ s out rc, t.read_row_values dbug table buf fields false = Outcome.ok (s, out, rc) →
      ∀ j, bitmap_is_set table.read_set j = false → out.value j = buf.value j)
    ∧ (∀ r, t.current_row = some r → table.null_bytes = 1 →
        (∀ f ∈ fields, f.field_index < 16) →
        ∃ out, t.read_row_values dbug table buf fields false = Outcome.ok (t, out, 0)) := by
  constructor
  · intro s out rc h j hj
    obtain ⟨_, _, hout⟩ := read_row_values_ok_inv dbug t s table buf out fields false rc h
    refine read_row_fields_preserve dbug t.current_row table false
      (fun b => b.value j = buf.value j) ?_ fields
      { buf with null_flag := fun _ => false } out rfl hout
    intro f b b2 hreq hq hs
    have hne : j ≠ f.field_index := by
      intro hjf
      rw [← hjf, hj] at hreq
      cases hreq
    rw [(read_row_field_frame dbug _ f b b2 hs j hne).1]
    exact hq
  · intro r hrow hnull hvalid
    obtain ⟨out, hout⟩ := read_row_fields_ok dbug r table false fields
      { buf with null_flag := fun _ => false } (Or.inr (fun f hf _ => hvalid f hf))
    exact ⟨out, read_row_values_of_fields dbug t table buf out fields false r hrow hnull hout⟩

/-- C9, an instance: a query that reads the columns 0 and 12 of the sample row
returns, and the storage of the fourteen other columns keeps its old text. -/
theorem read_row_values_frame_witness :
    ∃ out, (sample_table_at 0).read_row_values true (table_reading [0, 12]) stale_buf
        all_fields false = Outcome.ok (sample_table_at 0, out, 0)
      ∧ ∀ j ∈ [1, 2, 3, 4, 5, 6, 7, 8, 9, 10, 11, 13, 14, 15],
          out.value j = field_value.varchar [120] := by
  have hframe := read_row_values_frame true (sample_table_at 0) (table_reading [0, 12])
    stale_buf all_fields
  obtain ⟨out, hcall⟩ := hframe.2 (make_row sample_entry junk_row) rfl rfl all_fields_valid
  refine ⟨out, hcall, ?_⟩
  intro j hj
  simp only [List.mem_cons, List.mem_singleton, List.not_mem_nil, or_false] at hj
  rcases hj with h | h | h | h | h | h | h | h | h | h | h | h | h | h <;> subst h <;>
    exact hframe.1 _ _ _ hcall _ rfl

/-! ## Bounds of the row strings -/

theorem read_row_fields_value (dbug : Bool) (r : row_host_cache) (table : TABLE)
    (read_all : Bool) (j : Nat) (v : field_value)
    (hstep : ∀ (f : Field) (b b2 : row_buffer), f.field_index = j →
      read_row_field dbug (some r) f b = Outcome.ok b2 → b2.value j = v)
    (fields : List Field) (buf out : row_buffer)
    (hmem : ∃ f ∈ fields, f.field_index = j
      ∧ (read_all || bitmap_is_set table.read_set f.field_index) = true)
    (hout : read_row_fields dbug (some r) table read_all fields buf = Outcome.ok out) :
    out.value j = v := by
  refine read_row_fields_establish dbug (some r) table read_all
    (fun b => b.value j = v) j ?_ hstep fields buf out hmem hout
  intro f b b2 _ hq hs
  by_cases hf : f.field_index = j
  · exact hstep f b b2 hf hs
  · rw [(read_row_field_frame dbug _ f b b2 hs j (fun h => hf h.symm)).1]; exact hq

theorem make_row_ip_text (e : Host_entry) (r0 : row_host_cache)
    (hip : strlen e.ip_key < UINT_MOD) :
    (make_row e r0).m_ip.take (make_row e r0).m_ip_length
      = e.ip_key.takeWhile (fun c => c != 0) := by
  rw [make_row_m_ip, make_row_m_ip_length, Nat.mod_eq_of_lt hip,
    take_strcpy _ _ _ (Nat.le_refl _)]
  exact List.take_of_length_le (Nat.le_refl _)

theorem make_row_hostname_text (e : Host_entry) (r0 : row_host_cache)
    (hpos : 0 < e.m_hostname_length) (hlen : e.m_hostname_length = strlen e.m_hostname) :
    (make_row e r0).m_hostname.take (make_row e r0).m_hostname_length
      = e.m_hostname.takeWhile (fun c => c != 0) := by
  rw [make_row_m_hostname, make_row_m_hostname_length, if_pos hpos, take_strncpy, hlen]
  unfold strlen
  rw [List.take_of_length_le (Nat.le_refl _), Nat.sub_self]
  simp

/-- C11: for every cache entry whose IP key fits, with its NUL, in the 64 code
units of m_ip, whose hostname fits in 255 code units and whose
m_hostname_length is the length of its hostname, when the current row is
make_row of the entry and the columns 0 and 1 are emitted, IP holds the bytes of
the key up to its NUL, a text of strlen(key) bytes, and, if the hostname length
is positive, HOST holds the bytes of the entry's hostname, unchanged. -/
theorem strings_round_trip (dbug : Bool) (e : Host_entry) (r0 : row_host_cache)
    (t : table_host_cache) (table : TABLE) (buf : row_buffer) (fields : List Field)
    (read_all : Bool)
    (hip : strlen e.ip_key + 1 ≤ 64) (hhost : strlen e.m_hostname ≤ 255)
    (hlen : e.m_hostname_length = strlen e.m_hostname)
    (hrow : t.current_row = some (make_row e r0)) (hnull : table.null_bytes = 1)
    (hvalid : ∀ f ∈ fields, f.field_index < 16)
    (hcol0 : ∃ f ∈ fields, f.field_index = 0
      ∧ (read_all || bitmap_is_set table.read_set f.field_index) = true)
    (hcol1 : ∃ f ∈ fields, f.field_index = 1
      ∧ (read_all || bitmap_is_set table.read_set f.field_index) = true) :
    ∃ out, t.read_row_values dbug table buf fields read_all = Outcome.ok (t, out, 0)
      ∧ out.value 0 = field_value.varchar (e.ip_key.takeWhile fun c => c != 0)
      ∧ (e.ip_key.takeWhile fun c => c != 0).length = strlen e.ip_key
      ∧ (make_row e r0).m_ip_length = strlen e.ip_key
      ∧ (0 < e.m_hostname_length →
          out.value 1 = field_value.varchar (e.m_hostname.takeWhile fun c => c != 0)
          ∧ (e.m_hostname.takeWhile fun c => c != 0).length = e.m_hostname_length
          ∧ e.m_hostname_length ≤ 255) := by
  obtain ⟨out, hout⟩ := read_row_fields_ok dbug (make_row e r0) table read_all fields
    { buf with null_flag := fun _ => false } (Or.inr (fun f hf _ => hvalid f hf))
  have hmod : strlen e.ip_key < UINT_MOD :=
    lt_of_le_of_lt (Nat.le_of_succ_le hip) (by decide)
  refine ⟨out, read_row_values_of_fields dbug t table buf out fields read_all _ hrow hnull hout,
    ?_, rfl, ?_, ?_⟩
  · refine read_row_fields_value dbug (make_row e r0) table read_all 0 _ ?_ fields _ out
      hcol0 hout
    intro f b b2 hf hs
    simp only [read_row_field, hf, with_row] at hs
    injection hs with hs
    subst hs
    simp only [set_field_varchar_utf8, hf, if_true, make_row_ip_text e r0 hmod]
  · rw [make_row_m_ip_length]
    exact Nat.mod_eq_of_lt hmod
  · intro hpos
    refine ⟨?_, ?_, ?_⟩
    · refine read_row_fields_value dbug (make_row e r0) table read_all 1 _ ?_ fields _ out
        hcol1 hout
      intro f b b2 hf hs
      have hpos2 : (make_row e r0).m_hostname_length > 0 := by
        rw [make_row_m_hostname_length]; exact hpos
      simp only [read_row_field, hf, with_row, hpos2, if_true] at hs
      injection hs with hs
      subst hs
      simp only [set_field_varchar_utf8, hf, if_true, make_row_hostname_text e r0 hpos hlen]
    · rw [hlen]; rfl
    · rw [hlen]; exact hhost

set_option maxRecDepth 10000 in
/-- C11, an instance: the row of 127.0.0.1 emits the nine bytes of "127.0.0.1"
in IP and the nine bytes of "localhost" in HOST. -/
theorem strings_round_trip_witness :
    ∃ out, (sample_table_at 0).read_row_values true (table_reading [0, 1]) stale_buf all_fields
        false = Outcome.ok (sample_table_at 0, out, 0)
      ∧ out.value 0 = field_value.varchar [49, 50, 55, 46, 48, 46, 48, 46, 49]
      ∧ out.value 1 = field_value.varchar [108, 111, 99, 97, 108, 104, 111, 115, 116] := by
  obtain ⟨out, h, h0, _, _, h1⟩ := strings_round_trip true sample_entry junk_row
    (sample_table_at 0) (table_reading [0, 1]) stale_buf all_fields false
    (by decide) (by decide) rfl rfl rfl all_fields_valid
    ⟨{ field_index := 0 }, by decide, rfl, rfl⟩ ⟨{ field_index := 1 }, by decide, rfl, rfl⟩
  exact ⟨out, h, h0, (h1 (by decide)).1⟩
/-! ## The snapshot after creation, the lock, and allocation failure -/

theorem rnd_pos_ok_inv (dbug : Bool) (t s : table_host_cache) (pos : PFS_simple_index)
    (rc : Int) (h : t.rnd_pos dbug pos = Outcome.ok (s, rc)) :
    s = { t with m_pos := pos, m_row := some pos.m_index } ∧ rc = 0 := by
  unfold table_host_cache.rnd_pos at h
  simp only [table_host_cache.set_position] at h
  split at h
  · cases h
  · injection h with h
    injection h with h1 h2
    exact ⟨h1.symm, h2.symm⟩

theorem apply_op_frame (dbug : Bool) (t s : table_host_cache) (op : cursor_op)
    (h : apply_op dbug t op = Outcome.ok s) :
    s.m_all_rows = t.m_all_rows ∧ s.m_row_count = t.m_row_count := by
  cases op with
  | reset_position =>
    simp only [apply_op] at h
    injection h with h; subst h; exact ⟨rfl, rfl⟩
  | rnd_next =>
    simp only [apply_op] at h
    injection h with h; subst h
    by_cases hlt : t.m_next_pos.m_index < t.m_row_count
    · rw [rnd_next_lt t hlt]; exact ⟨rfl, rfl⟩
    · rw [rnd_next_ge t hlt]; exact ⟨rfl, rfl⟩
  | rnd_pos pos =>
    simp only [apply_op] at h
    cases hp : t.rnd_pos dbug pos with
    | ok r =>
      rw [hp] at h
      injection h with h
      obtain ⟨r1, r2⟩ := r
      obtain ⟨h1, _⟩ := rnd_pos_ok_inv dbug t r1 pos r2 hp
      subst h
      simp only at *
      rw [h1]; exact ⟨rfl, rfl⟩
    | assert_fail => rw [hp] at h; cases h
    | undefined => rw [hp] at h; cases h

theorem run_ops_frame (dbug : Bool) :
    ∀ (ops : List cursor_op) (t s : table_host_cache), run_ops dbug ops t = Outcome.ok s →
      s.m_all_rows = t.m_all_rows ∧ s.m_row_count = t.m_row_count := by
  intro ops
  induction ops with
  | nil =>
    intro t s h
    simp only [run_ops] at h
    injection h with h; subst h; exact ⟨rfl, rfl⟩
  | cons op rest ih =>
    intro t s h
    simp only [run_ops] at h
    cases ha : apply_op dbug t op with
    | ok u =>
      rw [ha] at h
      obtain ⟨h1, h2⟩ := apply_op_frame dbug t u op ha
      obtain ⟨h3, h4⟩ := ih u s h
      exact ⟨h3.trans h1, h4.trans h2⟩
    | assert_fail => rw [ha] at h; cases h
    | undefined => rw [ha] at h; cases h

/-- C12: for every table state, reset_position, rnd_next, rnd_pos and
read_row_values, and every sequence of cursor calls, leave the row array and the
row count as they were. -/
theorem snapshot_never_mutated (dbug : Bool) (t : table_host_cache) :
    (t.reset_position.m_all_rows = t.m_all_rows
      ∧ t.reset_position.m_row_count = t.m_row_count)
    ∧ (t.rnd_next.1.m_all_rows = t.m_all_rows ∧ t.rnd_next.1.m_row_count = t.m_row_count)
    ∧ (∀ pos s rc, t.rnd_pos dbug pos = Outcome.ok (s, rc) →
        s.m_all_rows = t.m_all_rows ∧ s.m_row_count = t.m_row_count)
    ∧ (∀ table buf fields read_all s out rc,
        t.read_row_values dbug table buf fields read_all = Outcome.ok (s, out, rc) →
        s.m_all_rows = t.m_all_rows ∧ s.m_row_count = t.m_row_count)
    ∧ (∀ ops s, run_ops dbug ops t = Outcome.ok s →
        s.m_all_rows = t.m_all_rows ∧ s.m_row_count = t.m_row_count) := by
  refine ⟨⟨rfl, rfl⟩, ?_, ?_, ?_, ?_⟩
  · exact apply_op_frame dbug t _ cursor_op.rnd_next rfl
  · intro pos s rc h
    obtain ⟨h1, _⟩ := rnd_pos_ok_inv dbug t s pos rc h
    rw [h1]; exact ⟨rfl, rfl⟩
  · intro table buf fields read_all s out rc h
    obtain ⟨h1, _, _⟩ := read_row_values_ok_inv dbug t s table buf out fields read_all rc h
    rw [h1]; exact ⟨rfl, rfl⟩
  · intro ops s h
    exact run_ops_frame dbug ops t s h

/-- C12, an instance: after a scan to the end, a reset and a seek on the sample
snapshot, the two rows are the ones materialize made. -/
theorem snapshot_never_mutated_witness :
    ∃ s, run_ops true
        [cursor_op.rnd_next, cursor_op.rnd_next, cursor_op.rnd_next,
          cursor_op.reset_position, cursor_op.rnd_pos { m_index := 1 }] sample_table
        = Outcome.ok s
      ∧ s.m_all_rows
          = some [make_row sample_entry junk_row, make_row unresolved_entry junk_row]
      ∧ s.m_row_count = 2 := by
  have hex : ∃ s, run_ops true
      [cursor_op.rnd_next, cursor_op.rnd_next, cursor_op.rnd_next,
        cursor_op.reset_position, cursor_op.rnd_pos { m_index := 1 }] sample_table
      = Outcome.ok s := ⟨_, rfl⟩
  obtain ⟨s, hs⟩ := hex
  exact ⟨s, hs, (snapshot_never_mutated true sample_table).2.2.2.2 _ s hs⟩

theorem lock_depth_append_lock_unlock :
    ∀ (es : List lock_event) (d : Int),
      lock_depth d (es ++ [lock_event.lock, lock_event.unlock]) = lock_depth d es := by
  intro es
  induction es with
  | nil =>
    intro d
    simp only [List.nil_append, lock_depth]
    omega
  | cons e rest ih =>
    intro d
    cases e
    · show lock_depth (d + 1) (rest ++ [lock_event.lock, lock_event.unlock]) = _
      exact ih (d + 1)
    · show lock_depth (d - 1) (rest ++ [lock_event.lock, lock_event.unlock]) = _
      exact ih (d - 1)

theorem materialize_ok_inv (dbug : Bool) (t s : table_host_cache) (thd : THD)
    (cache c : hostname_cache)
    (h : t.materialize dbug thd cache = Outcome.ok (s, c)) :
    c = { cache with events := cache.events ++ [lock_event.lock, lock_event.unlock] }
    ∧ ((cache.size = 0 ∨ thd.alloc cache.size = none) → s = t) := by
  unfold table_host_cache.materialize at h
  split at h
  · cases h
  · split at h
    · cases h
    · simp only [hostname_cache_lock, hostname_cache_unlock, hostname_cache_size,
        hostname_cache_first] at h
      split at h
      · injection h with h
        injection h with h1 h2
        refine ⟨?_, fun _ => h1.symm⟩
        rw [← h2]; simp
      · rename_i hsz
        split at h
        · injection h with h
          injection h with h1 h2
          refine ⟨?_, fun _ => h1.symm⟩
          rw [← h2]; simp
        · rename_i rows hrows
          injection h with h
          injection h with h1 h2
          refine ⟨?_, ?_⟩
          · rw [← h2]; simp
          · intro hc
            rcases hc with hc | hc
            · simp [hc] at hsz
            · rw [hc] at hrows; cases hrows

/-- C13: every materialize call that returns, whichever path it took (empty
cache, failed allocation, copy), has added to the lock events exactly one lock
followed by one unlock, so the lock is held no more than before the call; and on
a new table the call does return. -/
theorem materialize_locks_once (dbug : Bool) (t : table_host_cache) (thd : THD)
    (cache : hostname_cache) :
    (∀ s c, t.materialize dbug thd cache = Outcome.ok (s, c) →
      c.events = cache.events ++ [lock_event.lock, lock_event.unlock]
      ∧ c.events.count lock_event.lock = cache.events.count lock_event.lock + 1
      ∧ c.events.count lock_event.unlock = cache.events.count lock_event.unlock + 1
      ∧ ∀ d, lock_depth d c.events = lock_depth d cache.events)
    ∧ ∃ s c, table_host_cache.new.materialize dbug thd cache = Outcome.ok (s, c) := by
  constructor
  · intro s c h
    obtain ⟨hc, _⟩ := materialize_ok_inv dbug t s thd cache c h
    subst hc
    refine ⟨rfl, ?_, ?_, ?_⟩
    · simp [List.count_append]
    · simp [List.count_append]
    · intro d
      exact lock_depth_append_lock_unlock _ d
  · obtain ⟨s, c, h, _⟩ := materialize_new_get dbug thd cache
    exact ⟨s, c, h⟩

/-- C13, an instance: on the three paths, from a cache whose lock is free, the
events are one lock then one unlock and the lock is free again. -/
theorem materialize_locks_once_witness :
    (∃ s c, table_host_cache.new.materialize true sample_thd sample_cache = Outcome.ok (s, c)
      ∧ c.events = [lock_event.lock, lock_event.unlock] ∧ lock_depth 0 c.events = 0)
    ∧ (∃ s c, table_host_cache.new.materialize true oom_thd sample_cache = Outcome.ok (s, c)
      ∧ c.events = [lock_event.lock, lock_event.unlock] ∧ lock_depth 0 c.events = 0)
    ∧ (∃ s c, table_host_cache.new.materialize true sample_thd
          { size := 0, entries := [], events := [] } = Outcome.ok (s, c)
      ∧ c.events = [lock_event.lock, lock_event.unlock] ∧ lock_depth 0 c.events = 0) := by
  refine ⟨⟨_, _, rfl, ?_⟩, ⟨_, _, rfl, ?_⟩, ⟨_, _, rfl, ?_⟩⟩
  · have h := (materialize_locks_once true table_host_cache.new sample_thd sample_cache).1
      _ _ rfl
    exact ⟨h.1, h.2.2.2 0⟩
  · have h := (materialize_locks_once true table_host_cache.new oom_thd sample_cache).1
      _ _ rfl
    exact ⟨h.1, h.2.2.2 0⟩
  · have h := (materialize_locks_once true table_host_cache.new sample_thd
      { size := 0, entries := [], events := [] }).1 _ _ rfl
    exact ⟨h.1, h.2.2.2 0⟩

/-- C14: when the cache size is positive and the row allocation fails,
materialize on a new table returns with the table as the constructor left it (no
row array, row count 0), the size and the entries of the cache are as before,
and the first rnd_next returns HA_ERR_END_OF_FILE and exposes no row; for any
table, a materialize that returns after a failed allocation returns the table
unchanged. -/
theorem materialize_alloc_failure (dbug : Bool) (thd : THD) (cache : hostname_cache)
    (hsize : 0 < hostname_cache_size cache)
    (hfail : thd.alloc (hostname_cache_size cache) = none) :
    (∃ c, table_host_cache.new.materialize dbug thd cache = Outcome.ok (table_host_cache.new, c)
      ∧ table_host_cache.new.m_all_rows = none
      ∧ table_host_cache.new.m_row_count = 0
      ∧ table_host_cache.new.m_row_count < hostname_cache_size cache
      ∧ hostname_cache_size c = hostname_cache_size cache
      ∧ hostname_cache_first c = hostname_cache_first cache
      ∧ table_host_cache.new.rnd_next.2 = HA_ERR_END_OF_FILE
      ∧ table_host_cache.new.rnd_next.1.m_row = none
      ∧ table_host_cache.new.rnd_next.1.current_row = none)
    ∧ ∀ (t s : table_host_cache) (c : hostname_cache),
        t.materialize dbug thd cache = Outcome.ok (s, c) →
        s = t ∧ hostname_cache_size c = hostname_cache_size cache
          ∧ hostname_cache_first c = hostname_cache_first cache := by
  have hok : thd.alloc_ok = false := by
    cases h : thd.alloc_ok with
    | false => rfl
    | true => simp [THD.alloc, h] at hfail
  constructor
  · exact ⟨_, materialize_new_oom dbug thd cache hok, rfl, rfl, hsize, rfl, rfl, rfl, rfl, rfl⟩
  · intro t s c h
    obtain ⟨hc, hs⟩ := materialize_ok_inv dbug t s thd cache c h
    subst hc
    exact ⟨hs (Or.inr hfail), rfl, rfl⟩

/-- C14, an instance: the sample cache and a session out of memory. -/
theorem materialize_alloc_failure_witness :
    ∃ c, table_host_cache.new.materialize true oom_thd sample_cache
        = Outcome.ok (table_host_cache.new, c)
      ∧ hostname_cache_first c = [sample_entry, unresolved_entry]
      ∧ table_host_cache.new.rnd_next.2 = HA_ERR_END_OF_FILE := by
  obtain ⟨c, h, _, _, _, _, h5, h6, _⟩ :=
    (materialize_alloc_failure true oom_thd sample_cache (by decide) rfl).1
  exact ⟨c, h, h5, h6⟩

/-! ## Contract violations: unknown column, invalid position -/

theorem read_row_field_default (dbug : Bool) (m_row : Option row_host_cache) (f : Field)
    (buf : row_buffer) (h : 16 ≤ f.field_index) :
    read_row_field dbug m_row f buf = if dbug then Outcome.assert_fail else Outcome.ok buf := by
  unfold read_row_field
  split
  case h_17 => rfl
  all_goals (rename_i heq; rw [heq] at h; exact absurd h (by decide))

theorem read_row_fields_debug_invalid (m_row : Option row_host_cache) (table : TABLE)
    (read_all : Bool) :
    ∀ (fields : List Field) (buf : row_buffer),
      (∃ f ∈ fields, (read_all || bitmap_is_set table.read_set f.field_index) = true
        ∧ 16 ≤ f.field_index) →
      (∀ out, read_row_fields true m_row table read_all fields buf ≠ Outcome.ok out)
      ∧ (∀ r, m_row = some r →
          read_row_fields true m_row table read_all fields buf = Outcome.assert_fail) := by
  intro fields
  induction fields with
  | nil =>
    intro buf hbad
    obtain ⟨f, hf, _⟩ := hbad
    cases hf
  | cons f rest ih =>
    intro buf hbad
    obtain ⟨g, hg, hgr, hg16⟩ := hbad
    simp only [read_row_fields]
    by_cases hr : (read_all || bitmap_is_set table.read_set f.field_index) = true
    · rw [if_pos hr]
      by_cases h16 : 16 ≤ f.field_index
      · rw [read_row_field_default true m_row f buf h16]
        simp
      · have hrest : ∃ f ∈ rest, (read_all || bitmap_is_set table.read_set f.field_index) = true
            ∧ 16 ≤ f.field_index := by
          rcases List.mem_cons.mp hg with hgf | hgrest
          · subst hgf; exact absurd hg16 h16
          · exact ⟨g, hgrest, hgr, hg16⟩
        constructor
        · intro out
          cases hs : read_row_field true m_row f buf with
          | ok b => exact (ih b hrest).1 out
          | assert_fail => simp
          | undefined => simp
        · intro r hrow
          subst hrow
          obtain ⟨b, hb⟩ := read_row_field_ok true r f buf (Or.inr (by omega))
          rw [hb]
          exact (ih b hrest).2 r rfl
    · rw [if_neg hr]
      have hrest : ∃ f ∈ rest, (read_all || bitmap_is_set table.read_set f.field_index) = true
          ∧ 16 ≤ f.field_index := by
        rcases List.mem_cons.mp hg with hgf | hgrest
        · subst hgf; exact absurd hgr hr
        · exact ⟨g, hgrest, hgr, hg16⟩
      exact ih buf hrest

/-- C15 (as amended): for every field list containing a requested field whose
ordinal is 16 or more, a debug build of read_row_values does not return (on a
row of a record with one null byte it stops at the failed assertion of the
default case), and a release build, on a row, returns 0 and leaves the value
storage of every ordinal from 16 on as it was. -/
theorem read_row_values_unknown_column (t : table_host_cache) (table : TABLE)
    (buf : row_buffer) (fields : List Field) (read_all : Bool)
    (hbad : ∃ f ∈ fields, (read_all || bitmap_is_set table.read_set f.field_index) = true
      ∧ 16 ≤ f.field_index) :
    (∀ s out rc, t.read_row_values true table buf fields read_all ≠ Outcome.ok (s, out, rc))
    ∧ (∀ r, t.current_row = some r → table.null_bytes = 1 →
        t.read_row_values true table buf fields read_all = Outcome.assert_fail)
    ∧ (∀ r, t.current_row = some r →
        ∃ out, t.read_row_values false table buf fields read_all = Outcome.ok (t, out, 0)
          ∧ ∀ j, 16 ≤ j → out.value j = buf.value j) := by
  refine ⟨?_, ?_, ?_⟩
  · intro s out rc h
    obtain ⟨_, _, hout⟩ := read_row_values_ok_inv true t s table buf out fields read_all rc h
    exact (read_row_fields_debug_invalid t.current_row table read_all fields _ hbad).1 out hout
  · intro r hrow hnull
    have h := (read_row_fields_debug_invalid t.current_row table read_all fields
      { buf with null_flag := fun _ => false } hbad).2 r hrow
    simp [table_host_cache.read_row_values, current_row_some_m_row t r hrow, hnull, h]
  · intro r hrow
    obtain ⟨out, hout⟩ := read_row_fields_ok false r table read_all fields
      { buf with null_flag := fun _ => false } (Or.inl rfl)
    refine ⟨out, ?_, ?_⟩
    · simp [table_host_cache.read_row_values, hrow, hout]
    · intro j hj
      refine read_row_fields_preserve false (some r) table read_all
        (fun b => b.value j = buf.value j) ?_ fields
        { buf with null_flag := fun _ => false } out rfl hout
      intro f b b2 _ hq hs
      by_cases hf : f.field_index = j
      · rw [read_row_field_default false (some r) f b (by omega)] at hs
        simp only [Bool.false_eq_true, if_false] at hs
        injection hs with hs
        subst hs
        exact hq
      · rw [(read_row_field_frame false _ f b b2 hs j (fun h => hf h.symm)).1]; exact hq

/-- C15, an instance of the amended claim: a debug build asked for the sixteen
columns and for ordinal 16 stops at the assertion. -/
theorem read_row_values_unknown_column_witness :
    (sample_table_at 0).read_row_values true (table_reading []) stale_buf
        (all_fields ++ [{ field_index := 16 }]) true = Outcome.assert_fail :=
  (read_row_values_unknown_column (sample_table_at 0) (table_reading []) stale_buf
    (all_fields ++ [{ field_index := 16 }]) true
    ⟨{ field_index := 16 }, by decide, rfl, by decide⟩).2.1
    (make_row sample_entry junk_row) rfl rfl

set_option maxRecDepth 10000 in
/-- C15 as stated fails: a release build asked for the sixteen columns and for
ordinal 16 returns success; it has emitted the sixteen columns and skipped
ordinal 16, whose storage keeps its old text. -/
theorem read_row_values_skips_unknown_column :
    ∃ out, (sample_table_at 0).read_row_values false (table_reading []) stale_buf
        (all_fields ++ [{ field_index := 16 }]) true = Outcome.ok (sample_table_at 0, out, 0)
      ∧ out.value 12 = field_value.ulonglong 5
      ∧ out.value 16 = field_value.varchar [120] :=
  ⟨_, rfl, rfl, rfl⟩

/-- C16 (as amended): for every position whose index is not below the row count,
a debug build of rnd_pos stops at the failed assertion and returns nothing; a
release build returns 0 with the current index set to the position and m_row
pointing at that index of the row array. -/
theorem rnd_pos_invalid_position (t : table_host_cache) (pos : PFS_simple_index)
    (hbad : t.m_row_count ≤ pos.m_index) :
    t.rnd_pos true pos = Outcome.assert_fail
    ∧ t.rnd_pos false pos
        = Outcome.ok ({ t with m_pos := pos, m_row := some pos.m_index }, 0) := by
  constructor
  · simp [table_host_cache.rnd_pos, table_host_cache.set_position, Nat.not_lt.mpr hbad]
  · simp [table_host_cache.rnd_pos, table_host_cache.set_position]

/-- C16, an instance of the amended claim: position 2 on the sample snapshot of
two rows, in a debug build. -/
theorem rnd_pos_invalid_position_witness :
    sample_table.rnd_pos true { m_index := 2 } = Outcome.assert_fail :=
  (rnd_pos_invalid_position sample_table { m_index := 2 } (by decide)).1

/-- C16 as stated fails: in a release build rnd_pos at position 2 of the sample
snapshot of two rows returns success, with m_row pointing past the last row. -/
theorem rnd_pos_release_accepts_invalid_position :
    ∃ s, sample_table.rnd_pos false { m_index := 2 } = Outcome.ok (s, 0)
      ∧ s.m_row_count = 2 ∧ s.m_pos.m_index = 2 ∧ s.m_row = some 2
      ∧ s.current_row = none :=
  ⟨_, rfl, rfl, rfl, rfl, rfl⟩
/-! ## The schema -/

theorem read_row_field_ulonglong_columns (dbug : Bool) (r : row_host_cache) (j : Nat)
    (h3 : 3 ≤ j) (h16 : j < 16) (buf : row_buffer) :
    ∃ v, read_row_field dbug (some r) { field_index := j } buf
      = Outcome.ok (set_field_ulonglong { field_index := j } v buf) := by
  interval_cases j <;> exact ⟨_, rfl⟩

/-- C17 (as amended): the schema declares 16 columns, IP, HOST, HOST_VALIDATED,
then SUM_BLOCKING_ERRORS followed by twelve bigint counters, one per failure
category; the emitter has a case for each ordinal 0..15 and for no other: it
stores a text for 0, an enumeration value for 2 and an unsigned integer for each
of 3..15, and an ordinal from 16 on falls to the default case, which a debug build
refuses. -/
theorem schema_sixteen_columns_twelve_counters :
    m_field_def.1 = 16
    ∧ m_field_def.2.length = 16
    ∧ field_types.map (fun c => c.1)
        = ["IP", "HOST", "HOST_VALIDATED", "SUM_BLOCKING_ERRORS",
            "COUNT_NAMEINFO_TRANSIENT_ERRORS", "COUNT_NAMEINFO_PERMANENT_ERRORS",
            "COUNT_FORMAT_ERRORS", "COUNT_ADDRINFO_TRANSIENT_ERRORS",
            "COUNT_ADDRINFO_PERMANENT_ERRORS", "COUNT_FCRDNS_ERRORS", "COUNT_HOST_ACL_ERRORS",
            "COUNT_HANDSHAKE_ERRORS", "COUNT_AUTHENTICATION_ERRORS", "COUNT_USER_ACL_ERRORS",
            "COUNT_LOCAL_ERRORS", "COUNT_UNKNOWN_ERRORS"]
    ∧ bigint_columns_after "SUM_BLOCKING_ERRORS" field_types
        = ["COUNT_NAMEINFO_TRANSIENT_ERRORS", "COUNT_NAMEINFO_PERMANENT_ERRORS",
            "COUNT_FORMAT_ERRORS", "COUNT_ADDRINFO_TRANSIENT_ERRORS",
            "COUNT_ADDRINFO_PERMANENT_ERRORS", "COUNT_FCRDNS_ERRORS", "COUNT_HOST_ACL_ERRORS",
            "COUNT_HANDSHAKE_ERRORS", "COUNT_AUTHENTICATION_ERRORS", "COUNT_USER_ACL_ERRORS",
            "COUNT_LOCAL_ERRORS", "COUNT_UNKNOWN_ERRORS"]
    ∧ (bigint_columns_after "SUM_BLOCKING_ERRORS" field_types).length = 12
    ∧ (bigint_columns_after "SUM_BLOCKING_ERRORS" field_types).Nodup
    ∧ (∀ (dbug : Bool) (r : row_host_cache) (buf : row_buffer),
        read_row_field dbug (some r) { field_index := 0 } buf
          = Outcome.ok (set_field_varchar_utf8 { field_index := 0 } r.m_ip r.m_ip_length buf)
        ∧ read_row_field dbug (some r) { field_index := 2 } buf
          = Outcome.ok (set_field_enum { field_index := 2 }
              (if r.m_host_validated then enum_yes_no.ENUM_YES else enum_yes_no.ENUM_NO) buf)
        ∧ (∀ j, 3 ≤ j → j < 16 →
            ∃ v, read_row_field dbug (some r) { field_index := j } buf
              = Outcome.ok (set_field_ulonglong { field_index := j } v buf))
        ∧ (∀ f : Field, 16 ≤ f.field_index →
            read_row_field dbug (some r) f buf
              = if dbug then Outcome.assert_fail else Outcome.ok buf))
    ∧ ∀ (r : row_host_cache) (buf : row_buffer) (f : Field),
        (∃ b, read_row_field true (some r) f buf = Outcome.ok b) ↔ f.field_index < 16 := by
  refine ⟨rfl, rfl, by decide, by decide, by decide, by decide, ?_, ?_⟩
  · intro dbug r buf
    exact ⟨rfl, rfl, fun j h3 h16 => read_row_field_ulonglong_columns dbug r j h3 h16 buf,
      fun f hf => read_row_field_default dbug (some r) f buf hf⟩
  · intro r buf f
    constructor
    · intro h
      obtain ⟨b, hb⟩ := h
      by_contra hge
      rw [read_row_field_default true (some r) f buf (by omega)] at hb
      simp at hb
    · intro h
      exact read_row_field_ok true r f buf (Or.inr h)

/-- C17 as stated fails: after SUM_BLOCKING_ERRORS the schema has twelve bigint
columns, not thirteen, and three columns, the aggregate and thirteen counters
would make 17 columns where the schema declares 16. -/
theorem schema_counters_not_thirteen :
    (bigint_columns_after "SUM_BLOCKING_ERRORS" field_types).length = 12
    ∧ (bigint_columns_after "SUM_BLOCKING_ERRORS" field_types).length ≠ 13
    ∧ field_types.length = 16
    ∧ 3 + 1 + 13 ≠ m_field_def.1 := by
  refine ⟨by decide, by decide, rfl, by decide⟩
/-! ## The cursor range and the seek -/

theorem run_ops_in_range (dbug : Bool) :
    ∀ (ops : List cursor_op) (t : table_host_cache),
      t.m_pos.m_index ≤ t.m_row_count → t.m_next_pos.m_index ≤ t.m_row_count →
      valid_positions t.m_row_count ops = true →
      ∃ s, run_ops dbug ops t = Outcome.ok s
        ∧ s.m_row_count = t.m_row_count
        ∧ s.m_pos.m_index ≤ s.m_row_count
        ∧ s.m_next_pos.m_index ≤ s.m_row_count := by
  intro ops
  induction ops with
  | nil => intro t h1 h2 _; exact ⟨t, rfl, rfl, h1, h2⟩
  | cons op rest ih =>
    intro t h1 h2 hv
    cases op with
    | reset_position =>
      simp only [valid_positions] at hv
      obtain ⟨s, hs, hc, hp, hn⟩ := ih t.reset_position (Nat.zero_le _) (Nat.zero_le _) hv
      exact ⟨s, by simp only [run_ops, apply_op]; exact hs, hc, hp, hn⟩
    | rnd_next =>
      simp only [valid_positions] at hv
      have hstep : t.rnd_next.1.m_row_count = t.m_row_count
          ∧ t.rnd_next.1.m_pos.m_index ≤ t.m_row_count
          ∧ t.rnd_next.1.m_next_pos.m_index ≤ t.m_row_count := by
        by_cases hlt : t.m_next_pos.m_index < t.m_row_count
        · rw [rnd_next_lt t hlt]; exact ⟨rfl, h2, hlt⟩
        · rw [rnd_next_ge t hlt]; exact ⟨rfl, h2, h2⟩
      obtain ⟨hc0, hp0, hn0⟩ := hstep
      obtain ⟨s, hs, hc, hp, hn⟩ := ih t.rnd_next.1 (hc0 ▸ hp0) (hc0 ▸ hn0) (hc0 ▸ hv)
      exact ⟨s, by simp only [run_ops, apply_op]; exact hs, hc.trans hc0, hp, hn⟩
    | rnd_pos pos =>
      simp only [valid_positions, Bool.and_eq_true, decide_eq_true_eq] at hv
      obtain ⟨hlt, hv⟩ := hv
      have hcall : t.rnd_pos dbug pos
          = Outcome.ok ({ t with m_pos := pos, m_row := some pos.m_index }, 0) := by
        simp [table_host_cache.rnd_pos, table_host_cache.set_position, hlt]
      obtain ⟨s, hs, hc, hp, hn⟩ :=
        ih { t with m_pos := pos, m_row := some pos.m_index } (Nat.le_of_lt hlt) h2 hv
      exact ⟨s, by simp only [run_ops, apply_op, hcall]; exact hs, hc, hp, hn⟩

/-- C18: from a table that create has constructed and materialized, every
sequence of reset_position, rnd_next and rnd_pos calls, the rnd_pos positions
being below the row count, runs to a state whose row count is the same and whose
current and next index are both at most the row count. -/
theorem cursor_index_in_range (dbug : Bool) (thd : THD) (cache : hostname_cache)
    (t : table_host_cache) (c : hostname_cache)
    (hcreate : table_host_cache.create dbug thd cache = Outcome.ok (t, c))
    (ops : List cursor_op) (hvalid : valid_positions t.m_row_count ops = true) :
    ∃ s, run_ops dbug ops t = Outcome.ok s
      ∧ s.m_row_count = t.m_row_count
      ∧ 0 ≤ s.m_pos.m_index ∧ s.m_pos.m_index ≤ s.m_row_count
      ∧ 0 ≤ s.m_next_pos.m_index ∧ s.m_next_pos.m_index ≤ s.m_row_count := by
  obtain ⟨_, hp0, hn0⟩ := materialize_new_cursor dbug thd cache t c hcreate
  obtain ⟨s, hs, hc, hp, hn⟩ := run_ops_in_range dbug ops t
    (by rw [hp0]; exact Nat.zero_le _) (by rw [hn0]; exact Nat.zero_le _) hvalid
  exact ⟨s, hs, hc, Nat.zero_le _, hp, Nat.zero_le _, hn⟩

/-- C18, an instance: on the sample snapshot, a scan past the end, a seek to row
0 and one more rnd_next leave the current and the next index at the end
sentinel 2. -/
theorem cursor_index_in_range_witness :
    ∃ s, run_ops true
        [cursor_op.rnd_next, cursor_op.rnd_next, cursor_op.rnd_next,
          cursor_op.rnd_pos { m_index := 0 }, cursor_op.rnd_next] sample_table = Outcome.ok s
      ∧ s.m_pos.m_index ≤ 2 ∧ s.m_next_pos.m_index ≤ 2 := by
  obtain ⟨s, hs, hc, _, hp, _, hn⟩ := cursor_index_in_range true sample_thd sample_cache
    sample_table _ rfl
    [cursor_op.rnd_next, cursor_op.rnd_next, cursor_op.rnd_next,
      cursor_op.rnd_pos { m_index := 0 }, cursor_op.rnd_next] (by decide)
  have hc2 : s.m_row_count = 2 := hc
  rw [hc2] at hp hn
  exact ⟨s, hs, hp, hn⟩

/-- C19: for every state and every position i below the row count, rnd_pos
returns 0, sets the current index to i and m_row to row i, and leaves the next
index, the row array and the row count as they were; the rnd_next that follows
does what it would have done without the seek: its current index is the next
index pending before the seek, which is i+1 only if that was pending. -/
theorem rnd_pos_keeps_next_index (dbug : Bool) (t : table_host_cache) (i : Nat)
    (hi : i < t.m_row_count) :
    ∃ s, t.rnd_pos dbug { m_index := i } = Outcome.ok (s, 0)
      ∧ s.m_pos.m_index = i
      ∧ s.m_row = some i
      ∧ s.m_next_pos = t.m_next_pos
      ∧ s.m_all_rows = t.m_all_rows
      ∧ s.m_row_count = t.m_row_count
      ∧ s.rnd_next = t.rnd_next
      ∧ s.rnd_next.1.m_pos.m_index = t.m_next_pos.m_index
      ∧ (t.m_next_pos.m_index ≠ i + 1 → s.rnd_next.1.m_pos.m_index ≠ i + 1) := by
  have hnext : ({ t with m_pos := { m_index := i }, m_row := some i } :
      table_host_cache).rnd_next = t.rnd_next := by
    by_cases hlt : t.m_next_pos.m_index < t.m_row_count
    · rw [rnd_next_lt t hlt]
      exact rnd_next_lt { t with m_pos := { m_index := i }, m_row := some i } hlt
    · rw [rnd_next_ge t hlt]
      exact rnd_next_ge { t with m_pos := { m_index := i }, m_row := some i } hlt
  have hpos : t.rnd_next.1.m_pos.m_index = t.m_next_pos.m_index := by
    by_cases hlt : t.m_next_pos.m_index < t.m_row_count
    · rw [rnd_next_lt t hlt]
    · rw [rnd_next_ge t hlt]
  refine ⟨{ t with m_pos := { m_index := i }, m_row := some i }, ?_, rfl, rfl, rfl, rfl, rfl,
    hnext, ?_, ?_⟩
  · simp [table_host_cache.rnd_pos, table_host_cache.set_position, hi]
  · rw [hnext, hpos]
  · intro hne
    rw [hnext, hpos]
    exact hne

/-- C19, an instance: on the sample snapshot, after one rnd_next (row 0, next
index 1) a seek to row 1 is followed by a rnd_next that returns 0 and stands at
index 1 again, not at the index 2 after the sought row. -/
theorem rnd_pos_keeps_next_index_witness :
    ∃ s, (rnd_next_iter 1 sample_table).rnd_pos true { m_index := 1 } = Outcome.ok (s, 0)
      ∧ s.m_pos.m_index = 1
      ∧ s.m_next_pos.m_index = 1
      ∧ s.rnd_next.2 = 0
      ∧ s.rnd_next.1.m_pos.m_index = 1
      ∧ s.rnd_next.1.m_pos.m_index ≠ 1 + 1 := by
  obtain ⟨s, h, h1, _, h3, _, _, h6, h7, h8⟩ :=
    rnd_pos_keeps_next_index true (rnd_next_iter 1 sample_table) 1 (by decide)
  refine ⟨s, h, h1, ?_, ?_, h7, h8 (by decide)⟩
  · rw [h3]; rfl
  · rw [h6]; rfl
/-! ## The null indicators -/

theorem read_row_field_null_frame (dbug : Bool) (r : row_host_cache) (f : Field)
    (buf b : row_buffer) (h : read_row_field dbug (some r) f buf = Outcome.ok b) :
    (f.field_index ≠ 1 ∨ 0 < r.m_hostname_length) → ∀ j, b.null_flag j = buf.null_flag j := by
  intro hcase j
  unfold read_row_field at h
  split at h
  case h_2 heq =>
    rcases hcase with hne | hpos
    · exact absurd heq hne
    · simp only [with_row, gt_iff_lt, hpos, if_true] at h
      injection h with h
      subst h
      rfl
  case h_17 =>
    split at h
    · cases h
    · injection h with h; subst h; rfl
  all_goals
    simp only [with_row] at h
    injection h with h
    subst h
    rfl

/-- C20: read_row_values clears every null indicator before it emits a field;
on a row, with a field array that holds HOST and ordinals below 16, it returns 0
and afterwards the HOST null indicator is set exactly when HOST is requested (by
read_all or by the read set) and the stored hostname length is 0, whatever the
indicator was before the call, and the null indicator of every other column is
clear. -/
theorem read_row_values_null_indicators (dbug : Bool) (t : table_host_cache) (table : TABLE)
    (buf : row_buffer) (fields : List Field) (read_all : Bool) (r : row_host_cache)
    (hrow : t.current_row = some r) (hnull : table.null_bytes = 1)
    (hvalid : ∀ f ∈ fields, f.field_index < 16)
    (hhost : ∃ f ∈ fields, f.field_index = 1) :
    ∃ out, t.read_row_values dbug table buf fields read_all = Outcome.ok (t, out, 0)
      ∧ (out.null_flag 1 = true ↔
          ((read_all = true ∨ bitmap_is_set table.read_set 1 = true)
            ∧ r.m_hostname_length = 0))
      ∧ ((read_all = false ∧ bitmap_is_set table.read_set 1 = false) →
          out.null_flag 1 = false)
      ∧ ∀ j, j ≠ 1 → out.null_flag j = false := by
  obtain ⟨out, hout⟩ := read_row_fields_ok dbug r table read_all fields
    { buf with null_flag := fun _ => false } (Or.inr (fun f hf _ => hvalid f hf))
  have hclear : ¬ ((read_all = true ∨ bitmap_is_set table.read_set 1 = true)
      ∧ r.m_hostname_length = 0) → out.null_flag 1 = false := by
    intro hnot
    refine read_row_fields_preserve dbug (some r) table read_all
      (fun b => b.null_flag 1 = false) ?_ fields
      { buf with null_flag := fun _ => false } out rfl hout
    intro f b b2 hreq hq hs
    have hcase : f.field_index ≠ 1 ∨ 0 < r.m_hostname_length := by
      by_cases hf : f.field_index = 1
      · right
        rw [hf] at hreq
        have hr : read_all = true ∨ bitmap_is_set table.read_set 1 = true := by
          simpa [Bool.or_eq_true] using hreq
        by_contra hlen
        exact hnot ⟨hr, by omega⟩
      · exact Or.inl hf
    rw [read_row_field_null_frame dbug r f b b2 hs hcase 1]
    exact hq
  have hset : ((read_all = true ∨ bitmap_is_set table.read_set 1 = true)
      ∧ r.m_hostname_length = 0) → out.null_flag 1 = true := by
    intro hyes
    obtain ⟨hr, hlen⟩ := hyes
    obtain ⟨g, hg, hg1⟩ := hhost
    have hmem : ∃ f ∈ fields, f.field_index = 1
        ∧ (read_all || bitmap_is_set table.read_set f.field_index) = true := by
      refine ⟨g, hg, hg1, ?_⟩
      rw [hg1]
      simpa [Bool.or_eq_true] using hr
    have hstep : ∀ (f : Field) (b b2 : row_buffer), f.field_index = 1 →
        read_row_field dbug (some r) f b = Outcome.ok b2 → b2.null_flag 1 = true := by
      intro f b b2 hf hs
      simp only [read_row_field, hf, with_row, hlen, gt_iff_lt, lt_self_iff_false,
        if_false] at hs
      injection hs with hs
      subst hs
      simp [Field.set_null, hf]
    refine read_row_fields_establish dbug (some r) table read_all
      (fun b => b.null_flag 1 = true) 1 ?_ hstep fields _ out hmem hout
    intro f b b2 _ hq hs
    by_cases hf : f.field_index = 1
    · exact hstep f b b2 hf hs
    · rw [(read_row_field_frame dbug _ f b b2 hs 1 (fun h => hf h.symm)).2]; exact hq
  refine ⟨out, read_row_values_of_fields dbug t table buf out fields read_all r hrow hnull hout,
    ?_, ?_, ?_⟩
  · constructor
    · intro h
      by_contra hnot
      rw [hclear hnot] at h
      cases h
    · exact hset
  · intro hno
    apply hclear
    intro hyes
    rcases hyes.1 with h | h
    · rw [hno.1] at h; cases h
    · rw [hno.2] at h; cases h
  · intro j hj
    refine read_row_fields_preserve dbug (some r) table read_all
      (fun b => b.null_flag j = false) ?_ fields
      { buf with null_flag := fun _ => false } out rfl hout
    intro f b b2 _ hq hs
    by_cases hf : f.field_index = j
    · rw [read_row_field_null_frame dbug r f b b2 hs (Or.inl (hf ▸ hj)) j]; exact hq
    · rw [(read_row_field_frame dbug _ f b b2 hs j (fun h => hf h.symm)).2]; exact hq

/-- C20, two instances on the row of the unresolved entry (hostname length 0),
the output record having every null indicator set before the call: when only
IP is requested the HOST indicator is clear after the call, and when HOST is
requested it is set; the IP indicator is clear both times. -/
theorem read_row_values_null_indicators_witness :
    (∃ out, (sample_table_at 1).read_row_values true (table_reading [0]) stale_buf all_fields
          false = Outcome.ok (sample_table_at 1, out, 0)
        ∧ stale_buf.null_flag 1 = true ∧ out.null_flag 1 = false ∧ out.null_flag 0 = false)
    ∧ (∃ out, (sample_table_at 1).read_row_values true (table_reading [0, 1]) stale_buf
          all_fields false = Outcome.ok (sample_table_at 1, out, 0)
        ∧ out.null_flag 1 = true ∧ out.null_flag 0 = false) := by
  constructor
  · obtain ⟨out, h, _, h2, h3⟩ := read_row_values_null_indicators true (sample_table_at 1)
      (table_reading [0]) stale_buf all_fields false (make_row unresolved_entry junk_row)
      rfl rfl all_fields_valid ⟨{ field_index := 1 }, by decide, rfl⟩
    exact ⟨out, h, rfl, h2 ⟨rfl, rfl⟩, h3 0 (by decide)⟩
  · obtain ⟨out, h, h1, _, h3⟩ := read_row_values_null_indicators true (sample_table_at 1)
      (table_reading [0, 1]) stale_buf all_fields false (make_row unresolved_entry junk_row)
      rfl rfl all_fields_valid ⟨{ field_index := 1 }, by decide, rfl⟩
    exact ⟨out, h, h1.mpr ⟨Or.inr rfl, rfl⟩, h3 0 (by decide)⟩

end HostCache
